import Mathlib

/-!
Verification of the Store Pool (`pkg/storage/store_pool.go`).

The Go source is shallowly embedded below.  Machine integers and
`time.Duration`/`time.Time` values are modelled as `Int` (nanosecond wall
clock), `float64` statistics as `ℚ`, Go maps as total functions together
with an explicit domain list, and the priority-queue slice as a length
plus an entries function.  The background liveness worker's loop body is
embedded as a pure state transformer over the pool state; gossip
callbacks are embedded for the successfully-decoded payload case.
-/

set_option maxHeartbeats 1000000

abbrev StoreID := Int
abbrev NodeID := Int
abbrev RangeID := Int
abbrev ReplicaID := Int

/-- Modelled from the spec: a hybrid-logical-clock timestamp (§6, glossary) —
a causally ordered value with a wall-time projection (`GoTime` reads
`wallTime`); ordering (`hlc.Timestamp.Less`) compares wall time first and
the logical component second. -/
structure Timestamp where
  wallTime : Int
  logical : Int
deriving DecidableEq, Repr

/-- `hlc.Timestamp.Less`: wall time first, logical component second. -/
def Timestamp.Less (t s : Timestamp) : Bool :=
  t.wallTime < s.wallTime || (t.wallTime == s.wallTime && t.logical < s.logical)

/-- Modelled from the spec: attribute lists of `roachpb.Attributes` —
opaque strings used for all-of matching (§3, glossary). -/
structure Attributes where
  attrs : List String
deriving DecidableEq, Repr

structure NodeDescriptor where
  nodeID : NodeID
  attrs : Attributes
deriving DecidableEq, Repr

/-- Modelled from the spec: capacity telemetry of a store descriptor —
total capacity, available capacity and range count (§3). -/
structure StoreCapacity where
  capacity : Int
  available : Int
  rangeCount : Int
deriving DecidableEq, Repr

/-- `roachpb.StoreCapacity.FractionUsed`: `(capacity-available)/capacity`,
`0` when `capacity` is zero. -/
def StoreCapacity.fractionUsed (sc : StoreCapacity) : ℚ :=
  if sc.capacity == 0 then 0
  else ((sc.capacity - sc.available : Int) : ℚ) / ((sc.capacity : Int) : ℚ)

/-- Modelled from the spec: a store descriptor carries a stable store
identifier, the hosting node, attribute strings and capacity telemetry
(§3). -/
structure StoreDescriptor where
  storeID : StoreID
  node : NodeDescriptor
  attrs : Attributes
  capacity : StoreCapacity
deriving DecidableEq, Repr

/-- Modelled from the spec: the combined attribute set is the union of the
node-level and store-level attribute lists (§4.10). -/
def StoreDescriptor.combinedAttrs (s : StoreDescriptor) : Attributes :=
  ⟨s.node.attrs.attrs ++ s.attrs.attrs⟩

structure ReplicaDescriptor where
  nodeID : NodeID
  storeID : StoreID
  replicaID : ReplicaID
deriving DecidableEq, Repr

/-- One `(range, replica)` entry of a `roachpb.StoreDeadReplicas` payload. -/
structure ReplicaIdent where
  rangeID : RangeID
  replica : ReplicaDescriptor
deriving DecidableEq, Repr

/-- The decoded dead-replicas gossip payload for one store. -/
structure StoreDeadReplicas where
  storeID : StoreID
  replicas : List ReplicaIdent
deriving DecidableEq, Repr

/-- `config.Constraint` (only the `Value` field is consulted by `match`). -/
structure Constraint where
  value : String
deriving DecidableEq, Repr

structure Constraints where
  constraints : List Constraint
deriving DecidableEq, Repr

/-- `storeDetail`: per-store mutable record.  The Go struct additionally
carries a logging `ctx`, which has no semantic content and is dropped.
`throttledUntil` is a wall-clock instant (`time.Time`), `index` the heap
back-pointer, and `deadReplicas` the per-range dead replica index (a Go
map, embedded as a total function defaulting to the empty list exactly as
a Go map lookup of a missing key yields `nil`). -/
structure storeDetail where
  desc : Option StoreDescriptor
  dead : Bool
  timesDied : Int
  foundDeadOn : Timestamp
  throttledUntil : Int
  lastUpdatedTime : Timestamp
  index : Int
  deadReplicas : RangeID → List ReplicaDescriptor

/-- `storeDetail.markDead`: sets the detail to dead.  (The warning log it
emits when `desc` is present is not modelled.) -/
def storeDetail.markDead (sd : storeDetail) (foundDeadOn : Timestamp) : storeDetail :=
  { sd with dead := true, foundDeadOn := foundDeadOn, timesDied := sd.timesDied + 1 }

/-- `storeDetail.markAlive`: saves the descriptor argument (a possibly-nil
pointer), clears `dead` and records the update time. -/
def storeDetail.markAlive (sd : storeDetail) (foundAliveOn : Timestamp)
    (storeDesc : Option StoreDescriptor) : storeDetail :=
  { sd with desc := storeDesc, dead := false, lastUpdatedTime := foundAliveOn }

/-- `storeMatch`: result of classifying a detail against constraints. -/
inductive storeMatch where
  | dead
  | alive
  | throttled
  | available
deriving DecidableEq, Repr

/-- `storeDetail.match`: dead if the `dead` flag is set or no descriptor is
present; alive if some constraint value is missing from the combined
attribute set; throttled if `throttledUntil` is after `now`; available
otherwise.  (`match` is a reserved word in Lean, hence the prime.  The Go
code materialises the combined attributes into a set before the membership
tests; list membership is the same test.) -/
def storeDetail.match' (sd : storeDetail) (now : Int) (constraints : Constraints) : storeMatch :=
  if sd.dead then .dead
  else
    match sd.desc with
    | none => .dead
    | some desc =>
      if constraints.constraints.all (fun c => desc.combinedAttrs.attrs.contains c.value) then
        if now < sd.throttledUntil then .throttled else .available
      else .alive

/-- `stat`: running sample size, mean and sum of squared deviations.
`float64` arithmetic is modelled over `ℚ`. -/
structure stat where
  n : ℚ
  mean : ℚ
  s : ℚ
deriving DecidableEq, Repr

/-- `stat.update`: Welford's recurrence, exactly as the Go code sequences
it (`n` incremented first, `s` updated from the old and the new mean). -/
def stat.update (st : stat) (x : ℚ) : stat :=
  let n := st.n + 1
  let oldMean := st.mean
  let mean := st.mean + (x - st.mean) / n
  { n := n, mean := mean, s := st.s + (x - oldMean) * (x - mean) }

/-- `maxFractionUsedThreshold`: allocator constant referenced by
`StoreList.add`; defined outside the excerpt (`allocator.go`), value
0.95 per the surrounding release.  No claim depends on its value. -/
def maxFractionUsedThreshold : ℚ := 95 / 100

/-- `StoreList`: filtered snapshot plus aggregate statistics. -/
structure StoreList where
  stores : List StoreDescriptor
  count : stat
  used : stat
  candidateCount : stat

/-- The zero `stat` (Go zero value). -/
def stat.zero : stat := ⟨0, 0, 0⟩

/-- `StoreList{}` — the Go zero value. -/
def StoreList.empty : StoreList := ⟨[], stat.zero, stat.zero, stat.zero⟩

/-- `StoreList.add`: append the descriptor and update the statistics. -/
def StoreList.add (sl : StoreList) (s : StoreDescriptor) : StoreList :=
  { stores := sl.stores ++ [s]
    count := sl.count.update (s.capacity.rangeCount : ℚ)
    used := sl.used.update s.capacity.fractionUsed
    candidateCount :=
      if s.capacity.fractionUsed ≤ maxFractionUsedThreshold then
        sl.candidateCount.update (s.capacity.rangeCount : ℚ)
      else sl.candidateCount }

/-- The priority-queue slice `storePoolPQ`, embedded as a length plus an
entries function (positions `≥ length` are garbage, never read).  It holds
store identifiers; the shared `*storeDetail` pointers of the Go code are
modelled by always reading details through the pool's `storeDetails`
function. -/
structure StoreQueue where
  length : Nat
  entries : Nat → StoreID

/-- `StorePool`: registry function plus its domain (the map), the priority
queue, and the construction-time configuration durations. -/
structure StorePool where
  timeUntilStoreDead : Int
  failedReservationsTimeout : Int
  declinedReservationsTimeout : Int
  storeDetails : StoreID → storeDetail
  storeIDs : List StoreID
  queue : StoreQueue

namespace StorePool

/-- Queue length. -/
def qlen (sp : StorePool) : Nat := sp.queue.length

/-- Identifier stored at queue position `p`. -/
def qid (sp : StorePool) (p : Nat) : StoreID := sp.queue.entries p

/-- `id` occurs at some live position of the queue. -/
def inQueue (sp : StorePool) (id : StoreID) : Prop :=
  ∃ p, p < sp.qlen ∧ sp.qid p = id

instance (sp : StorePool) (id : StoreID) : Decidable (sp.inQueue id) :=
  decidable_of_iff (∃ p ∈ List.range sp.qlen, sp.qid p = id) (by
    constructor
    · rintro ⟨p, hp, h⟩; exact ⟨p, List.mem_range.mp hp, h⟩
    · rintro ⟨p, hp, h⟩; exact ⟨p, List.mem_range.mpr hp, h⟩)

/-- The detail at queue position `p` (`pq[p]`). -/
def detailAt (sp : StorePool) (p : Nat) : storeDetail := sp.storeDetails (sp.qid p)

/-- Heap priority at position `p`. -/
def key (sp : StorePool) (p : Nat) : Timestamp := (sp.detailAt p).lastUpdatedTime

/-- `storePoolPQ.Less`: compares `lastUpdatedTime` with `hlc.Timestamp.Less`. -/
def pqLess (sp : StorePool) (i j : Nat) : Bool := (sp.key i).Less (sp.key j)

/-- Overwrite the `index` field of `id`'s detail (the heap back-pointer
maintenance performed by `Swap`, `Push` and `Pop`). -/
def setIndex (sp : StorePool) (id : StoreID) (ix : Int) : StorePool :=
  { sp with storeDetails :=
      Function.update sp.storeDetails id { sp.storeDetails id with index := ix } }

/-- Apply `f` to `id`'s detail in place (mutation through the shared
pointer in the Go code). -/
def updateDetail (sp : StorePool) (id : StoreID) (f : storeDetail → storeDetail) : StorePool :=
  { sp with storeDetails := Function.update sp.storeDetails id (f (sp.storeDetails id)) }

/-- `storePoolPQ.Swap`: exchange positions `i` and `j` and restore both
back-pointers (`pq[i].index, pq[j].index = i, j`). -/
def pqSwap (sp : StorePool) (i j : Nat) : StorePool :=
  let a := sp.qid i
  let b := sp.qid j
  let sp2 := { sp with queue :=
    { sp.queue with entries := fun p => if p = i then b else if p = j then a else sp.queue.entries p } }
  (sp2.setIndex b i).setIndex a j

/-- `container/heap`'s `up` (sift-up), with an explicit structural fuel so
that the definition evaluates in the kernel; every caller passes
`fuel ≥ j`, which the fuel-sufficiency hypotheses of the lemmas below show
never exhausts. -/
def pqUpGo (sp : StorePool) (fuel j : Nat) : StorePool :=
  match fuel with
  | 0 => sp
  | fuel + 1 =>
    if j = 0 then sp
    else
      let i := (j - 1) / 2
      if sp.pqLess j i then (sp.pqSwap i j).pqUpGo fuel i else sp

/-- `up(h, j)` as called by the heap operations. -/
def pqUp (sp : StorePool) (j : Nat) : StorePool := sp.pqUpGo j j

/-- The smaller child of `i` among positions `< n` (the `j` computed by
`container/heap`'s `down`), assuming `2*i+1 < n`. -/
def minChildPos (sp : StorePool) (i n : Nat) : Nat :=
  if 2 * i + 2 < n && sp.pqLess (2 * i + 2) (2 * i + 1) then 2 * i + 2 else 2 * i + 1

/-- `container/heap`'s `down` (sift-down) on the prefix of length `n`,
returning the final position of the sifted element; fuel as in `pqUpGo`
(callers pass `fuel ≥ n - i`). -/
def pqDownGo (sp : StorePool) (fuel i n : Nat) : StorePool × Nat :=
  match fuel with
  | 0 => (sp, i)
  | fuel + 1 =>
    if 2 * i + 1 < n then
      let j := sp.minChildPos i n
      if sp.pqLess j i then (sp.pqSwap i j).pqDownGo fuel j n else (sp, i)
    else (sp, i)

/-- `down(h, i, n)`; the Go function's boolean result is `result.2 > i`. -/
def pqDown (sp : StorePool) (i n : Nat) : StorePool × Nat := sp.pqDownGo (n - i) i n

/-- `heap.Push` composed with `storePoolPQ.Push`: set the new item's index
to `n`, append it, and sift it up. -/
def pqPush (sp : StorePool) (id : StoreID) : StorePool :=
  let n := sp.qlen
  let sp2 := sp.setIndex id n
  let sp3 := { sp2 with queue :=
    { length := n + 1, entries := fun p => if p = n then id else sp2.queue.entries p } }
  sp3.pqUp n

/-- `heap.Pop` composed with `storePoolPQ.Pop`: swap the root with the last
element, sift the new root down on the shortened prefix, then detach the
last element, setting its index to `-1`. -/
def pqPop (sp : StorePool) : StorePool × StoreID :=
  let n := sp.qlen - 1
  let sp1 := sp.pqSwap 0 n
  let sp2 := (sp1.pqDown 0 n).1
  let id := sp2.qid n
  let sp3 := sp2.setIndex id (-1)
  ({ sp3 with queue := { sp3.queue with length := n } }, id)

/-- `heap.Fix(pq, i)`: sift down from `i`; if the element did not move,
sift it up instead. -/
def pqFix (sp : StorePool) (i : Nat) : StorePool :=
  let r := sp.pqDown i sp.qlen
  if r.2 = i then r.1.pqUp i else r.1

/-- `storePoolPQ.enqueue`: `Push` when the detail is not in the queue
(`index < 0`), otherwise reprioritize in place with `Fix`. -/
def enqueue (sp : StorePool) (id : StoreID) : StorePool :=
  if (sp.storeDetails id).index < 0 then sp.pqPush id
  else sp.pqFix (sp.storeDetails id).index.toNat

/-- `storePoolPQ.peek`. -/
def peek (sp : StorePool) : Option StoreID :=
  if sp.qlen = 0 then none else some (sp.qid 0)

/-- `storePoolPQ.dequeue`. -/
def dequeue (sp : StorePool) : StorePool × Option StoreID :=
  if sp.qlen = 0 then (sp, none)
  else
    let r := sp.pqPop
    (r.1, some r.2)

end StorePool

/-- `newStoreDetail`: Go zero value with `index` set to `-1` and an empty
`deadReplicas` map.  (The logging `ctx` argument is dropped.) -/
def newStoreDetail : storeDetail :=
  { desc := none
    dead := false
    timesDied := 0
    foundDeadOn := ⟨0, 0⟩
    throttledUntil := 0
    lastUpdatedTime := ⟨0, 0⟩
    index := -1
    deadReplicas := fun _ => [] }

namespace StorePool

/-- `getStoreDetailLocked`: return the pool unchanged when `storeID` is
known; otherwise insert a fresh detail, mark it alive with no descriptor
and enqueue it.  `now` stands for the `sp.clock.Now()` call in the body.
The Go function returns the shared `*storeDetail`; callers of the
embedding read `sp.storeDetails storeID` instead. -/
def getStoreDetailLocked (sp : StorePool) (storeID : StoreID) (now : Timestamp) : StorePool :=
  if storeID ∈ sp.storeIDs then sp
  else
    let sp2 := { sp with
      storeDetails := Function.update sp.storeDetails storeID newStoreDetail
      storeIDs := sp.storeIDs ++ [storeID] }
    let sp3 := sp2.updateDetail storeID (fun d => d.markAlive now none)
    sp3.enqueue storeID

/-- `storeGossipUpdate`, successful-decode path.  The body reads the clock
inside `getStoreDetailLocked` and again for `markAlive`; both reads are
modelled by the single `now` argument (no claim distinguishes the two
instants). -/
def storeGossipUpdate (sp : StorePool) (storeDesc : StoreDescriptor) (now : Timestamp) : StorePool :=
  let sp2 := sp.getStoreDetailLocked storeDesc.storeID now
  let sp3 := sp2.updateDetail storeDesc.storeID (fun d => d.markAlive now (some storeDesc))
  sp3.enqueue storeDesc.storeID

end StorePool

/-- The index `range → list of replicas` built by `deadReplicasGossipUpdate`
from the payload (`deadReplicas[r.RangeID] = append(..., r.Replica)`). -/
def buildDeadReplicasIndex (replicas : List ReplicaIdent) : RangeID → List ReplicaDescriptor :=
  replicas.foldl
    (fun m r => Function.update m r.rangeID (m r.rangeID ++ [r.replica]))
    (fun _ => [])

namespace StorePool

/-- `deadReplicasGossipUpdate`, successful-decode path: resolve the detail
and replace its `deadReplicas` mapping wholesale. -/
def deadReplicasGossipUpdate (sp : StorePool) (replicas : StoreDeadReplicas)
    (now : Timestamp) : StorePool :=
  let sp2 := sp.getStoreDetailLocked replicas.storeID now
  sp2.updateDetail replicas.storeID
    (fun d => { d with deadReplicas := buildDeadReplicasIndex replicas.replicas })

/-- One iteration of the liveness worker's locked section (`start`):
returns the new pool state and the timeout the worker will wait for.
`now` stands for the `sp.clock.Now()` read; `GoTime` projections are wall
times. -/
def workerIteration (sp : StorePool) (now : Timestamp) : StorePool × Int :=
  match sp.peek with
  | none => (sp, sp.timeUntilStoreDead)
  | some headID =>
    let detail := sp.storeDetails headID
    let deadAsOf := detail.lastUpdatedTime.wallTime + sp.timeUntilStoreDead
    if deadAsOf < now.wallTime then
      let r := sp.dequeue
      match r.2 with
      | some deadID => (r.1.updateDetail deadID (fun d => d.markDead now), 0)
      | none => (r.1, 0)
    else (sp, deadAsOf - now.wallTime)

/-- `deadReplicas` (the query): the loop body resolves each replica's
detail (possibly creating it), includes the replica when the store is dead,
and otherwise scans `detail.deadReplicas[rangeID]` for a matching
`ReplicaID` (`continue outer` after the first hit). -/
def deadReplicasLoop (sp : StorePool) (rangeID : RangeID)
    (repls : List ReplicaDescriptor) (now : Timestamp) :
    List ReplicaDescriptor × StorePool :=
  match repls with
  | [] => ([], sp)
  | repl :: rest =>
    let sp2 := sp.getStoreDetailLocked repl.storeID now
    let detail := sp2.storeDetails repl.storeID
    let hit : Bool :=
      detail.dead || (detail.deadReplicas rangeID).any (fun dr => dr.replicaID == repl.replicaID)
    let r := sp2.deadReplicasLoop rangeID rest now
    (if hit then repl :: r.1 else r.1, r.2)

/-- `StorePool.deadReplicas`. -/
def deadReplicas (sp : StorePool) (rangeID : RangeID)
    (repls : List ReplicaDescriptor) (now : Timestamp) :
    List ReplicaDescriptor × StorePool :=
  sp.deadReplicasLoop rangeID repls now

/-- The identifier list walked by `getStoreList`: all registry keys, sorted
ascending when `deterministic` (Go map iteration order is arbitrary; the
registry's insertion order stands in for it). -/
def storeListIDs (sp : StorePool) (deterministic : Bool) : List StoreID :=
  if deterministic then sp.storeIDs.mergeSort (fun a b => a ≤ b) else sp.storeIDs

end StorePool

/-- Go dereferences `*detail.desc` in the `storeMatchAvailable` case; the
classifier guarantees the pointer is non-nil there, so the default this
embedding supplies to `Option.getD` is never read. -/
def zeroStoreDescriptor : StoreDescriptor :=
  ⟨0, ⟨0, ⟨[]⟩⟩, ⟨[]⟩, ⟨0, 0, 0⟩⟩

namespace StorePool

/-- The switch body of `getStoreList`'s loop for one store. -/
def storeListStep (sp : StorePool) (constraints : Constraints) (now : Int)
    (acc : StoreList × Nat × Nat) (storeID : StoreID) : StoreList × Nat × Nat :=
  match (sp.storeDetails storeID).match' now constraints with
  | .alive => (acc.1, acc.2.1 + 1, acc.2.2)
  | .throttled => (acc.1, acc.2.1 + 1, acc.2.2 + 1)
  | .available =>
    (acc.1.add ((sp.storeDetails storeID).desc.getD zeroStoreDescriptor), acc.2.1 + 1, acc.2.2)
  | .dead => acc

/-- `getStoreList`: walk the (possibly sorted) identifiers classifying each
detail; `now` is the wall-time projection of the clock read. -/
def getStoreList (sp : StorePool) (constraints : Constraints) (deterministic : Bool)
    (now : Int) : StoreList × Nat × Nat :=
  (sp.storeListIDs deterministic).foldl (sp.storeListStep constraints now)
    (StoreList.empty, 0, 0)

end StorePool

/-- `throttleReason`. -/
inductive throttleReason where
  | declined
  | failed
deriving DecidableEq, Repr

namespace StorePool

/-- `throttle`: resolve the detail (lazily creating it) and stamp
`throttledUntil` from the reason's configured timeout. -/
def throttle (sp : StorePool) (reason : throttleReason) (toStoreID : StoreID)
    (now : Timestamp) : StorePool :=
  let sp2 := sp.getStoreDetailLocked toStoreID now
  match reason with
  | .declined =>
    sp2.updateDetail toStoreID
      (fun d => { d with throttledUntil := now.wallTime + sp2.declinedReservationsTimeout })
  | .failed =>
    sp2.updateDetail toStoreID
      (fun d => { d with throttledUntil := now.wallTime + sp2.failedReservationsTimeout })

/-- `updateRemoteCapacityEstimate`: resolve the detail (lazily creating
it); if a descriptor is present overwrite its `Capacity.RangeCount`,
otherwise drop the update. -/
def updateRemoteCapacityEstimate (sp : StorePool) (toStoreID : StoreID)
    (capacity : StoreCapacity) (now : Timestamp) : StorePool :=
  match ((sp.getStoreDetailLocked toStoreID now).storeDetails toStoreID).desc with
  | none => sp.getStoreDetailLocked toStoreID now
  | some desc =>
    (sp.getStoreDetailLocked toStoreID now).updateDetail toStoreID
      (fun d => { d with desc := some { desc with capacity := { desc.capacity with rangeCount := capacity.rangeCount } } })

end StorePool

/-- `NewStorePool`: empty registry and queue with the given configuration
durations (the gossip-callback registration and worker spawn have no
state effect). -/
def initialPool (timeUntilStoreDead failedTimeout declinedTimeout : Int) : StorePool :=
  { timeUntilStoreDead := timeUntilStoreDead
    failedReservationsTimeout := failedTimeout
    declinedReservationsTimeout := declinedTimeout
    storeDetails := fun _ => newStoreDetail
    storeIDs := []
    queue := { length := 0, entries := fun _ => 0 } }

/-- A public operation of the pool, with the clock reads it performs passed
explicitly (no monotonicity is assumed). -/
inductive Op where
  | gossipStore (desc : StoreDescriptor) (now : Timestamp)
  | gossipDeadReplicas (payload : StoreDeadReplicas) (now : Timestamp)
  | workerIter (now : Timestamp)
  | throttleOp (reason : throttleReason) (id : StoreID) (now : Timestamp)
  | updateCapacity (id : StoreID) (cap : StoreCapacity) (now : Timestamp)
  | queryDeadReplicas (rangeID : RangeID) (repls : List ReplicaDescriptor) (now : Timestamp)

/-- Apply one public operation to the pool state. -/
def applyOp (sp : StorePool) : Op → StorePool
  | .gossipStore desc now => sp.storeGossipUpdate desc now
  | .gossipDeadReplicas payload now => sp.deadReplicasGossipUpdate payload now
  | .workerIter now => (sp.workerIteration now).1
  | .throttleOp reason id now => sp.throttle reason id now
  | .updateCapacity id cap now => sp.updateRemoteCapacityEstimate id cap now
  | .queryDeadReplicas rangeID repls now => (sp.deadReplicasLoop rangeID repls now).2

/-- Run a sequence of public operations. -/
def runOps (sp : StorePool) (ops : List Op) : StorePool := ops.foldl applyOp sp

namespace StorePool

/-- Index/membership consistency: queue entries are distinct registry
members whose details carry their position in `index`, and registry
members outside the queue carry `-1`. -/
def IdxOK (sp : StorePool) : Prop :=
  (∀ p, p < sp.qlen → ∀ q, q < sp.qlen → sp.qid p = sp.qid q → p = q) ∧
  (∀ p, p < sp.qlen → sp.qid p ∈ sp.storeIDs) ∧
  (∀ p, p < sp.qlen → (sp.storeDetails (sp.qid p)).index = (p : Int)) ∧
  (∀ id, id ∈ sp.storeIDs → ¬ sp.inQueue id → (sp.storeDetails id).index = -1)

/-- The min-heap property on `lastUpdatedTime`: no position is `Less` than
its parent, i.e. every parent's timestamp is `≤` its child's. -/
def HeapOK (sp : StorePool) : Prop :=
  ∀ k, k < sp.qlen → 0 < k → sp.pqLess k ((k - 1) / 2) = false

/-- The pool's liveness-queue invariant. -/
def Inv (sp : StorePool) : Prop := sp.IdxOK ∧ sp.HeapOK

instance (sp : StorePool) : Decidable sp.IdxOK := by
  unfold StorePool.IdxOK; infer_instance

instance (sp : StorePool) : Decidable sp.HeapOK := by
  unfold StorePool.HeapOK; infer_instance

instance (sp : StorePool) : Decidable sp.Inv := by
  unfold StorePool.Inv; infer_instance

end StorePool

/-- Two details agree on every field except possibly the heap back-pointer
`index` (the only field the queue operations touch). -/
def detailFrame (d d' : storeDetail) : Prop :=
  d.desc = d'.desc ∧ d.dead = d'.dead ∧ d.timesDied = d'.timesDied ∧
  d.foundDeadOn = d'.foundDeadOn ∧ d.throttledUntil = d'.throttledUntil ∧
  d.lastUpdatedTime = d'.lastUpdatedTime ∧ d.deadReplicas = d'.deadReplicas

namespace StorePool

/-- What a sift operation (`Swap`, `up`, `down`) may do to the pool: it
permutes queue positions and rewrites `index` back-pointers, and nothing
else. -/
def siftFrame (sp sp' : StorePool) : Prop :=
  sp'.storeIDs = sp.storeIDs ∧
  sp'.timeUntilStoreDead = sp.timeUntilStoreDead ∧
  sp'.failedReservationsTimeout = sp.failedReservationsTimeout ∧
  sp'.declinedReservationsTimeout = sp.declinedReservationsTimeout ∧
  sp'.qlen = sp.qlen ∧
  (∀ id, sp.inQueue id ↔ sp'.inQueue id) ∧
  (∀ id, detailFrame (sp'.storeDetails id) (sp.storeDetails id))

/-- Precondition of `up(j)`: every parent edge except `j`'s own holds, and
`j`'s children (if `j` has a parent) are not below `j`'s parent. -/
def UpInv (sp : StorePool) (j : Nat) : Prop :=
  (∀ k, k < sp.qlen → 0 < k → k ≠ j → sp.pqLess k ((k - 1) / 2) = false) ∧
  (0 < j → ∀ c, c < sp.qlen → (c = 2 * j + 1 ∨ c = 2 * j + 2) →
    sp.pqLess c ((j - 1) / 2) = false)

/-- Precondition of `down(i, n)`, part 1: every parent edge inside the
prefix of length `n` holds except possibly those incident to `i`. -/
def DownInv1 (sp : StorePool) (i n : Nat) : Prop :=
  ∀ k, k < n → 0 < k → k ≠ i → (k - 1) / 2 ≠ i → sp.pqLess k ((k - 1) / 2) = false

/-- Precondition of `down(i, n)`, part 2: `i`'s children (if `i` has a
parent) are not below `i`'s parent. -/
def DownInv2 (sp : StorePool) (i n : Nat) : Prop :=
  0 < i → ∀ c, c < n → (c = 2 * i + 1 ∨ c = 2 * i + 2) →
    sp.pqLess c ((i - 1) / 2) = false

end StorePool

/-- The transposition of queue positions performed by `Swap(i, j)`. -/
def swapIdx (i j p : Nat) : Nat := if p = i then j else if p = j then i else p

/-- The specification-side membership test of §4.12, stated against the
pool state *before* the `deadReplicas` query runs: a replica is dead iff
its store is known and either the store's detail is dead, or the detail's
per-range index for `rangeID` contains its `ReplicaID`.  (A store the pool
has never heard of resolves to a freshly created alive detail with an
empty index, hence `false`.)  `StorePool.deadReplicas` is proved to filter
its input by exactly this predicate. -/
def specDeadReplicaHit (sp : StorePool) (rangeID : RangeID) (repl : ReplicaDescriptor) : Bool :=
  if repl.storeID ∈ sp.storeIDs then
    (sp.storeDetails repl.storeID).dead ||
      ((sp.storeDetails repl.storeID).deadReplicas rangeID).any
        (fun dr => dr.replicaID == repl.replicaID)
  else false

/-!
## Lemmas

Order lemmas for `Timestamp.Less`, frame lemmas for the state operations,
the heap correctness development, and finally one theorem per claim.
-/

theorem Timestamp.less_asymm {a b : Timestamp} (h : a.Less b = true) : b.Less a = false := by
  simp only [Timestamp.Less, Bool.or_eq_true, Bool.or_eq_false_iff, Bool.and_eq_true,
    Bool.and_eq_false_iff, decide_eq_true_eq, decide_eq_false_iff_not, beq_iff_eq,
    beq_eq_false_iff_ne, ne_eq] at *
  omega

theorem Timestamp.notLess_trans {a b c : Timestamp} (h1 : b.Less a = false)
    (h2 : c.Less b = false) : c.Less a = false := by
  simp only [Timestamp.Less, Bool.or_eq_true, Bool.or_eq_false_iff, Bool.and_eq_true,
    Bool.and_eq_false_iff, decide_eq_true_eq, decide_eq_false_iff_not, beq_iff_eq,
    beq_eq_false_iff_ne, ne_eq] at *
  omega

theorem Timestamp.notLess_of_less_of_notLess {a b c : Timestamp} (h1 : a.Less b = true)
    (h2 : c.Less b = false) : c.Less a = false := by
  simp only [Timestamp.Less, Bool.or_eq_true, Bool.or_eq_false_iff, Bool.and_eq_true,
    Bool.and_eq_false_iff, decide_eq_true_eq, decide_eq_false_iff_not, beq_iff_eq,
    beq_eq_false_iff_ne, ne_eq] at *
  omega

theorem Timestamp.notLess_right_of_less_of_notLess {a b c : Timestamp} (h1 : a.Less b = true)
    (h2 : a.Less c = false) : b.Less c = false := by
  simp only [Timestamp.Less, Bool.or_eq_true, Bool.or_eq_false_iff, Bool.and_eq_true,
    Bool.and_eq_false_iff, decide_eq_true_eq, decide_eq_false_iff_not, beq_iff_eq,
    beq_eq_false_iff_ne, ne_eq] at *
  omega

namespace StorePool

theorem detailFrame_refl (d : storeDetail) : detailFrame d d :=
  ⟨rfl, rfl, rfl, rfl, rfl, rfl, rfl⟩

theorem detailFrame_trans {a b c : storeDetail} (h1 : detailFrame a b)
    (h2 : detailFrame b c) : detailFrame a c := by
  obtain ⟨x1, x2, x3, x4, x5, x6, x7⟩ := h1
  obtain ⟨y1, y2, y3, y4, y5, y6, y7⟩ := h2
  exact ⟨x1.trans y1, x2.trans y2, x3.trans y3, x4.trans y4, x5.trans y5,
    x6.trans y6, x7.trans y7⟩

theorem setIndex_qlen (sp : StorePool) (id : StoreID) (ix : Int) :
    (sp.setIndex id ix).qlen = sp.qlen := rfl

theorem setIndex_qid (sp : StorePool) (id : StoreID) (ix : Int) (p : Nat) :
    (sp.setIndex id ix).qid p = sp.qid p := rfl

theorem setIndex_storeIDs (sp : StorePool) (id : StoreID) (ix : Int) :
    (sp.setIndex id ix).storeIDs = sp.storeIDs := rfl

theorem setIndex_details (sp : StorePool) (id : StoreID) (ix : Int) (id' : StoreID) :
    (sp.setIndex id ix).storeDetails id' =
      if id' = id then { sp.storeDetails id with index := ix } else sp.storeDetails id' := by
  by_cases h : id' = id
  · subst h; simp [setIndex, Function.update_same]
  · simp [setIndex, Function.update_noteq h, h]

theorem setIndex_detailFrame (sp : StorePool) (id : StoreID) (ix : Int) (id' : StoreID) :
    detailFrame ((sp.setIndex id ix).storeDetails id') (sp.storeDetails id') := by
  rw [setIndex_details]
  by_cases h : id' = id
  · subst h; simp only [if_pos rfl]; exact ⟨rfl, rfl, rfl, rfl, rfl, rfl, rfl⟩
  · simp only [if_neg h]; exact detailFrame_refl _

theorem setIndex_key (sp : StorePool) (id : StoreID) (ix : Int) (p : Nat) :
    (sp.setIndex id ix).key p = sp.key p := by
  unfold key detailAt
  rw [setIndex_qid, setIndex_details]
  by_cases h : sp.qid p = id <;> simp [h]

theorem setIndex_pqLess (sp : StorePool) (id : StoreID) (ix : Int) (i j : Nat) :
    (sp.setIndex id ix).pqLess i j = sp.pqLess i j := by
  unfold pqLess; rw [setIndex_key, setIndex_key]

theorem updateDetail_qlen (sp : StorePool) (id : StoreID) (f : storeDetail → storeDetail) :
    (sp.updateDetail id f).qlen = sp.qlen := rfl

theorem updateDetail_qid (sp : StorePool) (id : StoreID) (f : storeDetail → storeDetail)
    (p : Nat) : (sp.updateDetail id f).qid p = sp.qid p := rfl

theorem updateDetail_storeIDs (sp : StorePool) (id : StoreID)
    (f : storeDetail → storeDetail) : (sp.updateDetail id f).storeIDs = sp.storeIDs := rfl

theorem updateDetail_inQueue (sp : StorePool) (id : StoreID) (f : storeDetail → storeDetail)
    (id' : StoreID) : (sp.updateDetail id f).inQueue id' ↔ sp.inQueue id' := Iff.rfl

theorem updateDetail_details (sp : StorePool) (id : StoreID) (f : storeDetail → storeDetail)
    (id' : StoreID) :
    (sp.updateDetail id f).storeDetails id' =
      if id' = id then f (sp.storeDetails id) else sp.storeDetails id' := by
  by_cases h : id' = id
  · subst h; simp [updateDetail, Function.update_same]
  · simp [updateDetail, Function.update_noteq h, h]

theorem updateDetail_details_same (sp : StorePool) (id : StoreID)
    (f : storeDetail → storeDetail) :
    (sp.updateDetail id f).storeDetails id = f (sp.storeDetails id) := by
  rw [updateDetail_details]; simp

theorem updateDetail_details_ne (sp : StorePool) (id : StoreID)
    (f : storeDetail → storeDetail) (id' : StoreID) (h : id' ≠ id) :
    (sp.updateDetail id f).storeDetails id' = sp.storeDetails id' := by
  rw [updateDetail_details]; simp [h]

theorem pqSwap_qlen (sp : StorePool) (i j : Nat) : (sp.pqSwap i j).qlen = sp.qlen := rfl

theorem pqSwap_storeIDs (sp : StorePool) (i j : Nat) :
    (sp.pqSwap i j).storeIDs = sp.storeIDs := rfl

theorem pqSwap_config (sp : StorePool) (i j : Nat) :
    (sp.pqSwap i j).timeUntilStoreDead = sp.timeUntilStoreDead ∧
    (sp.pqSwap i j).failedReservationsTimeout = sp.failedReservationsTimeout ∧
    (sp.pqSwap i j).declinedReservationsTimeout = sp.declinedReservationsTimeout :=
  ⟨rfl, rfl, rfl⟩

theorem pqSwap_qid (sp : StorePool) (i j : Nat) (p : Nat) :
    (sp.pqSwap i j).qid p = if p = i then sp.qid j else if p = j then sp.qid i else sp.qid p := rfl

theorem pqSwap_detailFrame (sp : StorePool) (i j : Nat) (id : StoreID) :
    detailFrame ((sp.pqSwap i j).storeDetails id) (sp.storeDetails id) := by
  unfold pqSwap
  exact detailFrame_trans (setIndex_detailFrame _ _ _ _) (setIndex_detailFrame _ _ _ _)

theorem pqSwap_lastUpdatedTime (sp : StorePool) (i j : Nat) (id : StoreID) :
    ((sp.pqSwap i j).storeDetails id).lastUpdatedTime =
      (sp.storeDetails id).lastUpdatedTime :=
  (pqSwap_detailFrame sp i j id).2.2.2.2.2.1

theorem pqSwap_key (sp : StorePool) (i j : Nat) (p : Nat) :
    (sp.pqSwap i j).key p =
      if p = i then sp.key j else if p = j then sp.key i else sp.key p := by
  unfold key detailAt
  rw [pqSwap_lastUpdatedTime, pqSwap_qid]
  by_cases hi : p = i
  · simp [hi]
  · by_cases hj : p = j
    · by_cases hji : j = i <;> simp [hi, hj, hji]
    · simp [hi, hj]

theorem pqSwap_pqLess (sp : StorePool) (i j : Nat) (a b : Nat) :
    (sp.pqSwap i j).pqLess a b =
      ((if a = i then sp.key j else if a = j then sp.key i else sp.key a).Less
       (if b = i then sp.key j else if b = j then sp.key i else sp.key b)) := by
  unfold pqLess; rw [pqSwap_key, pqSwap_key]

end StorePool

namespace StorePool

theorem swapIdx_lt {i j p n : Nat} (hi : i < n) (hj : j < n) (hp : p < n) :
    swapIdx i j p < n := by
  unfold swapIdx; split_ifs <;> omega

theorem swapIdx_inj {i j p q : Nat} (h : swapIdx i j p = swapIdx i j q) : p = q := by
  unfold swapIdx at h; split_ifs at h <;> omega

theorem pqSwap_qid_swapIdx (sp : StorePool) (i j : Nat) (p : Nat) :
    (sp.pqSwap i j).qid p = sp.qid (swapIdx i j p) := by
  rw [pqSwap_qid]; unfold swapIdx
  split_ifs <;> rfl

theorem pqSwap_key_swapIdx (sp : StorePool) (i j : Nat) (p : Nat) :
    (sp.pqSwap i j).key p = sp.key (swapIdx i j p) := by
  rw [pqSwap_key]; unfold swapIdx
  split_ifs <;> rfl

theorem pqSwap_pqLess_swapIdx (sp : StorePool) (i j : Nat) (a b : Nat) :
    (sp.pqSwap i j).pqLess a b = sp.pqLess (swapIdx i j a) (swapIdx i j b) := by
  unfold pqLess; rw [pqSwap_key_swapIdx, pqSwap_key_swapIdx]

theorem pqSwap_index (sp : StorePool) (i j : Nat) (id : StoreID) :
    ((sp.pqSwap i j).storeDetails id).index =
      if id = sp.qid i then (j : Int)
      else if id = sp.qid j then (i : Int)
      else (sp.storeDetails id).index := by
  unfold pqSwap
  rw [setIndex_details]
  by_cases ha : id = sp.qid i
  · rw [if_pos ha, if_pos ha]
  · rw [if_neg ha, if_neg ha, setIndex_details]
    by_cases hb : id = sp.qid j
    · rw [if_pos hb, if_pos hb]
    · rw [if_neg hb, if_neg hb]

theorem pqSwap_inQueue (sp : StorePool) (i j : Nat) (hi : i < sp.qlen)
    (hj : j < sp.qlen) (id : StoreID) : (sp.pqSwap i j).inQueue id ↔ sp.inQueue id := by
  constructor
  · rintro ⟨p, hp, hqp⟩
    rw [pqSwap_qlen] at hp
    rw [pqSwap_qid_swapIdx] at hqp
    exact ⟨swapIdx i j p, swapIdx_lt hi hj hp, hqp⟩
  · rintro ⟨p, hp, hqp⟩
    refine ⟨swapIdx i j p, ?_, ?_⟩
    · rw [pqSwap_qlen]; exact swapIdx_lt hi hj hp
    · rw [pqSwap_qid_swapIdx]
      have : swapIdx i j (swapIdx i j p) = p := by unfold swapIdx; split_ifs <;> omega
      rw [this]; exact hqp

theorem pqSwap_siftFrame (sp : StorePool) (i j : Nat) (hi : i < sp.qlen)
    (hj : j < sp.qlen) : sp.siftFrame (sp.pqSwap i j) :=
  ⟨rfl, rfl, rfl, rfl, rfl, fun id => (pqSwap_inQueue sp i j hi hj id).symm,
   fun id => pqSwap_detailFrame sp i j id⟩

theorem pqSwap_idxOK (sp : StorePool) (i j : Nat) (hi : i < sp.qlen)
    (hj : j < sp.qlen) (h : sp.IdxOK) : (sp.pqSwap i j).IdxOK := by
  obtain ⟨inj, sub, pos, neg⟩ := h
  refine ⟨?_, ?_, ?_, ?_⟩
  · intro p hp q hq hpq
    rw [pqSwap_qlen] at hp hq
    rw [pqSwap_qid_swapIdx, pqSwap_qid_swapIdx] at hpq
    exact swapIdx_inj
      (inj _ (swapIdx_lt hi hj hp) _ (swapIdx_lt hi hj hq) hpq)
  · intro p hp
    rw [pqSwap_qlen] at hp
    rw [pqSwap_qid_swapIdx, pqSwap_storeIDs]
    exact sub _ (swapIdx_lt hi hj hp)
  · intro p hp
    rw [pqSwap_qlen] at hp
    rw [pqSwap_qid_swapIdx, pqSwap_index]
    by_cases hpi : p = i
    · rw [show swapIdx i j p = j by unfold swapIdx; simp [hpi]]
      by_cases hji : sp.qid j = sp.qid i
      · rw [if_pos hji]
        have : j = i := inj j hj i hi hji
        omega
      · rw [if_neg hji, if_pos rfl]
        omega
    · by_cases hpj : p = j
      · rw [show swapIdx i j p = i by unfold swapIdx; simp [hpi, hpj]]
        rw [if_pos rfl]
        omega
      · rw [show swapIdx i j p = p by unfold swapIdx; simp [hpi, hpj]]
        by_cases h1 : sp.qid p = sp.qid i
        · exact absurd (inj p hp i hi h1) hpi
        · by_cases h2 : sp.qid p = sp.qid j
          · exact absurd (inj p hp j hj h2) hpj
          · rw [if_neg h1, if_neg h2]
            exact pos p hp
  · intro id hmem hnq
    rw [pqSwap_storeIDs] at hmem
    rw [pqSwap_inQueue sp i j hi hj] at hnq
    rw [pqSwap_index]
    have h1 : ¬ id = sp.qid i := fun h => hnq ⟨i, hi, h.symm⟩
    have h2 : ¬ id = sp.qid j := fun h => hnq ⟨j, hj, h.symm⟩
    rw [if_neg h1, if_neg h2]
    exact neg id hmem hnq

end StorePool

namespace StorePool

theorem pqLess_def (sp : StorePool) (a b : Nat) :
    sp.pqLess a b = (sp.key a).Less (sp.key b) := rfl

theorem siftFrame_refl (sp : StorePool) : sp.siftFrame sp :=
  ⟨rfl, rfl, rfl, rfl, rfl, fun _ => Iff.rfl, fun _ => detailFrame_refl _⟩

theorem siftFrame_trans {a b c : StorePool} (h1 : a.siftFrame b) (h2 : b.siftFrame c) :
    a.siftFrame c := by
  obtain ⟨x1, x2, x3, x4, x5, x6, x7⟩ := h1
  obtain ⟨y1, y2, y3, y4, y5, y6, y7⟩ := h2
  exact ⟨y1.trans x1, y2.trans x2, y3.trans x3, y4.trans x4, y5.trans x5,
    fun id => (x6 id).trans (y6 id), fun id => detailFrame_trans (y7 id) (x7 id)⟩

theorem pqUpGo_siftFrame (fuel : Nat) : ∀ (sp : StorePool) (j : Nat), j < sp.qlen →
    sp.siftFrame (sp.pqUpGo fuel j) := by
  induction fuel with
  | zero => intro sp j _; exact siftFrame_refl sp
  | succ fuel ih =>
    intro sp j hj
    simp only [pqUpGo]
    by_cases h0 : j = 0
    · rw [if_pos h0]; exact siftFrame_refl sp
    · rw [if_neg h0]
      by_cases hless : sp.pqLess j ((j - 1) / 2) = true
      · rw [if_pos hless]
        have hij : (j - 1) / 2 < sp.qlen := lt_trans (by omega) hj
        refine siftFrame_trans (pqSwap_siftFrame sp _ j hij hj) (ih _ _ ?_)
        rw [pqSwap_qlen]; exact hij
      · rw [if_neg hless]; exact siftFrame_refl sp

theorem pqUpGo_idxOK (fuel : Nat) : ∀ (sp : StorePool) (j : Nat), j < sp.qlen →
    sp.IdxOK → (sp.pqUpGo fuel j).IdxOK := by
  induction fuel with
  | zero => intro sp j _ h; exact h
  | succ fuel ih =>
    intro sp j hj h
    simp only [pqUpGo]
    by_cases h0 : j = 0
    · rw [if_pos h0]; exact h
    · rw [if_neg h0]
      by_cases hless : sp.pqLess j ((j - 1) / 2) = true
      · rw [if_pos hless]
        have hij : (j - 1) / 2 < sp.qlen := lt_trans (by omega) hj
        refine ih _ _ ?_ (pqSwap_idxOK sp _ j hij hj h)
        rw [pqSwap_qlen]; exact hij
      · rw [if_neg hless]; exact h

theorem upInv_swap (sp : StorePool) (j : Nat) (h : sp.UpInv j) (hj : j < sp.qlen)
    (h0 : j ≠ 0) (hless : sp.pqLess j ((j - 1) / 2) = true) :
    (sp.pqSwap ((j - 1) / 2) j).UpInv ((j - 1) / 2) := by
  obtain ⟨h1, h2⟩ := h
  set i := (j - 1) / 2 with hidef
  have hij : i < j := by omega
  constructor
  · intro k hk hk0 hki
    rw [pqSwap_qlen] at hk
    rw [pqSwap_pqLess_swapIdx]
    by_cases hkj : k = j
    · -- the swapped edge (i, j) itself
      have e1 : swapIdx i j k = i := by unfold swapIdx; simp [hkj, hij.ne]
      have e2 : swapIdx i j ((k - 1) / 2) = j := by
        have : (k - 1) / 2 = i := by rw [hkj]
        unfold swapIdx; rw [this]; simp
      rw [e1, e2, pqLess_def]
      exact Timestamp.less_asymm hless
    · by_cases hpj : (k - 1) / 2 = j
      · -- k is a child of j
        have e1 : swapIdx i j k = k := by unfold swapIdx; simp [hkj]; omega
        have e2 : swapIdx i j ((k - 1) / 2) = i := by unfold swapIdx; simp [hpj, hij.ne']
        rw [e1, e2]
        exact h2 (by omega) k hk (by omega)
      · by_cases hpi : (k - 1) / 2 = i
        · -- k is the sibling of j under i
          have e1 : swapIdx i j k = k := by unfold swapIdx; simp [hkj]; omega
          have e2 : swapIdx i j ((k - 1) / 2) = j := by unfold swapIdx; simp [hpi]
          rw [e1, e2, pqLess_def]
          have hk_old : sp.pqLess k ((k - 1) / 2) = false := h1 k hk hk0 hkj
          rw [hpi, pqLess_def] at hk_old
          rw [pqLess_def] at hless
          exact Timestamp.notLess_of_less_of_notLess hless hk_old
        · -- edge untouched by the swap
          have e1 : swapIdx i j k = k := by unfold swapIdx; simp [hkj]; omega
          have e2 : swapIdx i j ((k - 1) / 2) = (k - 1) / 2 := by
            unfold swapIdx; simp [hpi, hpj]
          rw [e1, e2]
          exact h1 k hk hk0 hkj
  · intro hi0 c hc hcchild
    rw [pqSwap_qlen] at hc
    rw [pqSwap_pqLess_swapIdx]
    have hgi : (i - 1) / 2 ≠ i := by omega
    have hgj : (i - 1) / 2 ≠ j := by omega
    have eg : swapIdx i j ((i - 1) / 2) = (i - 1) / 2 := by unfold swapIdx; simp [hgi, hgj]
    have hi_old : sp.pqLess i ((i - 1) / 2) = false := h1 i (lt_trans hij hj) hi0 hij.ne
    by_cases hcj : c = j
    · have e1 : swapIdx i j c = i := by unfold swapIdx; simp [hcj, hij.ne]
      rw [e1, eg]
      exact hi_old
    · have e1 : swapIdx i j c = c := by unfold swapIdx; simp [hcj]; omega
      rw [e1, eg, pqLess_def]
      have hc_old : sp.pqLess c ((c - 1) / 2) = false := h1 c hc (by omega) hcj
      have hcpar : (c - 1) / 2 = i := by omega
      rw [hcpar, pqLess_def] at hc_old
      rw [pqLess_def] at hi_old
      exact Timestamp.notLess_trans hi_old hc_old

theorem pqUpGo_heapOK (fuel : Nat) : ∀ (sp : StorePool) (j : Nat), sp.UpInv j →
    j < sp.qlen → j ≤ fuel → (sp.pqUpGo fuel j).HeapOK := by
  induction fuel with
  | zero =>
    intro sp j h hj hfuel
    have h0 : j = 0 := by omega
    intro k hk hk0
    exact h.1 k hk hk0 (by omega)
  | succ fuel ih =>
    intro sp j h hj hfuel
    simp only [pqUpGo]
    by_cases h0 : j = 0
    · rw [if_pos h0]
      intro k hk hk0
      exact h.1 k hk hk0 (by omega)
    · rw [if_neg h0]
      by_cases hless : sp.pqLess j ((j - 1) / 2) = true
      · rw [if_pos hless]
        have hij : (j - 1) / 2 < j := by omega
        refine ih _ _ (upInv_swap sp j h hj h0 hless) ?_ (by omega)
        rw [pqSwap_qlen]; omega
      · rw [if_neg hless]
        intro k hk hk0
        by_cases hkj : k = j
        · rw [hkj]
          exact eq_false_of_ne_true hless
        · exact h.1 k hk hk0 hkj

end StorePool

namespace StorePool

theorem minChildPos_bounds (sp : StorePool) {i n : Nat} (h : 2 * i + 1 < n) :
    i < sp.minChildPos i n ∧ sp.minChildPos i n < n := by
  unfold minChildPos
  split_ifs with hc
  · simp only [Bool.and_eq_true, decide_eq_true_eq] at hc
    omega
  · omega

theorem minChildPos_child (sp : StorePool) (i n : Nat) :
    sp.minChildPos i n = 2 * i + 1 ∨ sp.minChildPos i n = 2 * i + 2 := by
  unfold minChildPos; split_ifs <;> simp

/-- The untaken child (if inside the prefix) is not below the taken one. -/
theorem minChildPos_min (sp : StorePool) {i n : Nat} (h : 2 * i + 1 < n)
    (c : Nat) (hc : c < n) (hchild : c = 2 * i + 1 ∨ c = 2 * i + 2) :
    sp.pqLess c (sp.minChildPos i n) = false ∨ c = sp.minChildPos i n := by
  unfold minChildPos
  split_ifs with hcond
  · simp only [Bool.and_eq_true, decide_eq_true_eq] at hcond
    rcases hchild with h1 | h1
    · left
      rw [h1, pqLess_def]
      have hc2 : (sp.key (2 * i + 2)).Less (sp.key (2 * i + 1)) = true := hcond.2
      exact Timestamp.less_asymm hc2
    · right; omega
  · rcases hchild with h1 | h1
    · right; omega
    · left
      rw [h1]
      rcases Nat.lt_or_ge (2 * i + 2) n with h2 | h2
      · have : sp.pqLess (2 * i + 2) (2 * i + 1) = false := by
          by_contra hne
          exact hcond (by simp [Nat.lt_iff_add_one_le.mp h2, eq_true_of_ne_false hne]; omega)
        exact this
      · omega

theorem downInv_swap (sp : StorePool) (i n : Nat) (h1 : sp.DownInv1 i n)
    (h2 : sp.DownInv2 i n) (hch : 2 * i + 1 < n) :
    (sp.pqSwap i (sp.minChildPos i n)).DownInv1 (sp.minChildPos i n) n ∧
    (sp.pqSwap i (sp.minChildPos i n)).DownInv2 (sp.minChildPos i n) n := by
  set j := sp.minChildPos i n with hjdef
  have hjb := sp.minChildPos_bounds hch
  have hjchild := sp.minChildPos_child i n
  have hij : i < j := hjb.1
  have hjn : j < n := hjb.2
  have hpj : (j - 1) / 2 = i := by omega
  constructor
  · intro k hk hk0 hkj hkpj
    rw [pqSwap_pqLess_swapIdx]
    by_cases hki : k = i
    · -- new position of the element swapped down into `i`'s old slot
      have hi0 : 0 < i := by omega
      have e1 : swapIdx i j k = j := by unfold swapIdx; simp [hki]
      have e2 : swapIdx i j ((k - 1) / 2) = (k - 1) / 2 := by
        unfold swapIdx
        have : (k - 1) / 2 ≠ i := by omega
        have : (k - 1) / 2 ≠ j := by omega
        simp_all
      rw [e1, e2, hki]
      exact h2 hi0 j hjn hjchild
    · by_cases hkpi : (k - 1) / 2 = i
      · -- k is the untaken sibling under i
        have e1 : swapIdx i j k = k := by unfold swapIdx; simp [hki, hkj]
        have e2 : swapIdx i j ((k - 1) / 2) = j := by unfold swapIdx; simp [hkpi, hij.ne']
        rw [e1, e2]
        rcases sp.minChildPos_min hch k hk (by omega) with hmin | heq
        · exact hmin
        · exact absurd heq hkj
      · -- edge untouched by the swap
        have e1 : swapIdx i j k = k := by unfold swapIdx; simp [hki, hkj]
        have e2 : swapIdx i j ((k - 1) / 2) = (k - 1) / 2 := by
          unfold swapIdx; simp [hkpi, hkpj]
        rw [e1, e2]
        exact h1 k hk hk0 hki hkpi
  · intro _ c hc hchild
    rw [pqSwap_pqLess_swapIdx, hpj]
    have hc1 : c ≠ i := by omega
    have hc2 : c ≠ j := by omega
    have e1 : swapIdx i j c = c := by unfold swapIdx; simp [hc1, hc2]
    have e2 : swapIdx i j i = j := by unfold swapIdx; simp
    rw [e1, e2]
    have hcp : (c - 1) / 2 = j := by omega
    rw [← hcp]
    exact h1 c hc (by omega) (by omega) (by omega)

end StorePool

namespace StorePool

theorem pqDownGo_siftFrame (fuel : Nat) : ∀ (sp : StorePool) (i n : Nat), n ≤ sp.qlen →
    sp.siftFrame (sp.pqDownGo fuel i n).1 := by
  induction fuel with
  | zero => intro sp i n _; exact siftFrame_refl sp
  | succ fuel ih =>
    intro sp i n hn
    simp only [pqDownGo]
    by_cases hch : 2 * i + 1 < n
    · rw [if_pos hch]
      by_cases hless : sp.pqLess (sp.minChildPos i n) i = true
      · rw [if_pos hless]
        have hjb := sp.minChildPos_bounds hch
        refine siftFrame_trans
          (pqSwap_siftFrame sp i (sp.minChildPos i n) (by omega) (by omega)) (ih _ _ _ ?_)
        rw [pqSwap_qlen]; exact hn
      · rw [if_neg hless]; exact siftFrame_refl sp
    · rw [if_neg hch]; exact siftFrame_refl sp

theorem pqDownGo_idxOK (fuel : Nat) : ∀ (sp : StorePool) (i n : Nat), n ≤ sp.qlen →
    sp.IdxOK → (sp.pqDownGo fuel i n).1.IdxOK := by
  induction fuel with
  | zero => intro sp i n _ h; exact h
  | succ fuel ih =>
    intro sp i n hn h
    simp only [pqDownGo]
    by_cases hch : 2 * i + 1 < n
    · rw [if_pos hch]
      by_cases hless : sp.pqLess (sp.minChildPos i n) i = true
      · rw [if_pos hless]
        have hjb := sp.minChildPos_bounds hch
        refine ih _ _ _ ?_ (pqSwap_idxOK sp i (sp.minChildPos i n) (by omega) (by omega) h)
        rw [pqSwap_qlen]; exact hn
      · rw [if_neg hless]; exact h
    · rw [if_neg hch]; exact h

theorem pqDownGo_qid_ge (fuel : Nat) : ∀ (sp : StorePool) (i n p : Nat), n ≤ p →
    (sp.pqDownGo fuel i n).1.qid p = sp.qid p := by
  induction fuel with
  | zero => intro sp i n p _; rfl
  | succ fuel ih =>
    intro sp i n p hp
    simp only [pqDownGo]
    by_cases hch : 2 * i + 1 < n
    · rw [if_pos hch]
      by_cases hless : sp.pqLess (sp.minChildPos i n) i = true
      · rw [if_pos hless]
        rw [ih _ _ _ _ hp, pqSwap_qid_swapIdx]
        have hjb := sp.minChildPos_bounds hch
        have : swapIdx i (sp.minChildPos i n) p = p := by
          unfold swapIdx
          have e1 : p ≠ i := by omega
          have e2 : p ≠ sp.minChildPos i n := by omega
          simp [e1, e2]
        rw [this]
      · rw [if_neg hless]
    · rw [if_neg hch]

theorem pqDownGo_spec (fuel : Nat) : ∀ (sp : StorePool) (i n : Nat),
    sp.DownInv1 i n → sp.DownInv2 i n → n ≤ sp.qlen → n - i ≤ fuel →
    i ≤ (sp.pqDownGo fuel i n).2 ∧
    ((sp.pqDownGo fuel i n).2 = i → (sp.pqDownGo fuel i n).1 = sp) ∧
    (i < (sp.pqDownGo fuel i n).2 →
      (sp.pqDownGo fuel i n).2 < n ∧
      (sp.pqDownGo fuel i n).1.pqLess (sp.pqDownGo fuel i n).2
        (((sp.pqDownGo fuel i n).2 - 1) / 2) = false) ∧
    (∀ k, k < n → 0 < k → k ≠ (sp.pqDownGo fuel i n).2 →
      (sp.pqDownGo fuel i n).1.pqLess k ((k - 1) / 2) = false) := by
  induction fuel with
  | zero =>
    intro sp i n h1 _ _ hfuel
    refine ⟨le_refl i, fun _ => rfl, fun h => absurd h (lt_irrefl i), ?_⟩
    intro k hk hk0 hki
    exact h1 k hk hk0 hki (by omega)
  | succ fuel ih =>
    intro sp i n h1 h2 hn hfuel
    simp only [pqDownGo]
    by_cases hch : 2 * i + 1 < n
    · rw [if_pos hch]
      by_cases hless : sp.pqLess (sp.minChildPos i n) i = true
      · rw [if_pos hless]
        have hjb := sp.minChildPos_bounds hch
        obtain ⟨hd1, hd2⟩ := downInv_swap sp i n h1 h2 hch
        have hqlen2 : n ≤ (sp.pqSwap i (sp.minChildPos i n)).qlen := by
          rw [pqSwap_qlen]; exact hn
        obtain ⟨c1, c2, c3, c4⟩ :=
          ih (sp.pqSwap i (sp.minChildPos i n)) (sp.minChildPos i n) n hd1 hd2 hqlen2 (by omega)
        refine ⟨by omega, fun heq => absurd heq (by omega), ?_, c4⟩
        intro _
        by_cases hstop :
            ((sp.pqSwap i (sp.minChildPos i n)).pqDownGo fuel (sp.minChildPos i n) n).2 =
              sp.minChildPos i n
        · rw [hstop, c2 hstop]
          refine ⟨by omega, ?_⟩
          have hpar : (sp.minChildPos i n - 1) / 2 = i := by
            rcases sp.minChildPos_child i n with h | h <;> omega
          rw [hpar, pqSwap_pqLess_swapIdx]
          have e1 : swapIdx i (sp.minChildPos i n) (sp.minChildPos i n) = i := by
            unfold swapIdx
            have : ¬ sp.minChildPos i n = i := by omega
            simp [this]
          have e2 : swapIdx i (sp.minChildPos i n) i = sp.minChildPos i n := by
            unfold swapIdx; simp
          rw [e1, e2, pqLess_def]
          rw [pqLess_def] at hless
          exact Timestamp.less_asymm hless
        · exact c3 (by omega)
      · rw [if_neg hless]
        refine ⟨le_refl i, fun _ => rfl, fun h => absurd h (lt_irrefl i), ?_⟩
        intro k hk hk0 hki
        by_cases hkpi : (k - 1) / 2 = i
        · rcases sp.minChildPos_min hch k hk (by omega) with hmin | heq
          · rw [hkpi, pqLess_def]
            have hji : (sp.key (sp.minChildPos i n)).Less (sp.key i) = false :=
              eq_false_of_ne_true hless
            have hkj : (sp.key k).Less (sp.key (sp.minChildPos i n)) = false := hmin
            exact Timestamp.notLess_trans hji hkj
          · rw [hkpi, heq]
            exact eq_false_of_ne_true hless
        · exact h1 k hk hk0 hki hkpi
    · rw [if_neg hch]
      refine ⟨le_refl i, fun _ => rfl, fun h => absurd h (lt_irrefl i), ?_⟩
      intro k hk hk0 hki
      exact h1 k hk hk0 hki (by omega)

end StorePool

namespace StorePool

theorem pqPush_frame (sp : StorePool) (id : StoreID) :
    (sp.pqPush id).qlen = sp.qlen + 1 ∧
    (sp.pqPush id).storeIDs = sp.storeIDs ∧
    (sp.pqPush id).timeUntilStoreDead = sp.timeUntilStoreDead ∧
    (sp.pqPush id).failedReservationsTimeout = sp.failedReservationsTimeout ∧
    (sp.pqPush id).declinedReservationsTimeout = sp.declinedReservationsTimeout ∧
    (∀ id', detailFrame ((sp.pqPush id).storeDetails id') (sp.storeDetails id')) ∧
    (∀ x, (sp.pqPush id).inQueue x ↔ (x = id ∨ sp.inQueue x)) := by
  set n := sp.qlen with hn
  set sp2 := sp.setIndex id n with hsp2
  set sp3 : StorePool := { sp2 with queue :=
    { length := n + 1, entries := fun p => if p = n then id else sp2.queue.entries p } } with hsp3
  have heq : sp.pqPush id = sp3.pqUpGo n n := rfl
  have h3len : sp3.qlen = n + 1 := rfl
  have h3lt : n < sp3.qlen := by rw [h3len]; omega
  have hframe := pqUpGo_siftFrame n sp3 n h3lt
  obtain ⟨f1, f2, f3, f4, f5, f6, f7⟩ := hframe
  rw [heq]
  refine ⟨by rw [f5]; exact h3len, by rw [f1]; rfl, by rw [f2]; rfl, by rw [f3]; rfl,
    by rw [f4]; rfl, ?_, ?_⟩
  · intro id'
    exact detailFrame_trans (f7 id') (setIndex_detailFrame sp id n id')
  · intro x
    rw [← f6 x]
    constructor
    · rintro ⟨p, hp, hqp⟩
      rw [h3len] at hp
      by_cases hpn : p = n
      · left
        rw [← hqp]
        show (if p = n then id else sp2.queue.entries p) = id
        rw [if_pos hpn]
      · right
        refine ⟨p, by omega, ?_⟩
        rw [← hqp]
        show sp.qid p = (if p = n then id else sp2.queue.entries p)
        rw [if_neg hpn]
        rfl
    · rintro (hx | ⟨p, hp, hqp⟩)
      · refine ⟨n, by rw [h3len]; omega, ?_⟩
        show (if n = n then id else sp2.queue.entries n) = x
        rw [if_pos rfl, hx]
      · refine ⟨p, by rw [h3len]; omega, ?_⟩
        show (if p = n then id else sp2.queue.entries p) = x
        rw [if_neg (by omega)]
        exact hqp

theorem pqPush_inv (sp : StorePool) (id : StoreID) (hInv : sp.Inv)
    (hmem : id ∈ sp.storeIDs) (hnq : ¬ sp.inQueue id) : (sp.pqPush id).Inv := by
  obtain ⟨⟨inj, sub, pos, neg⟩, hHeap⟩ := hInv
  unfold pqPush
  set n := sp.qlen with hndef
  set sp3 : StorePool :=
    { sp.setIndex id n with queue :=
      { length := n + 1, entries := fun p => if p = n then id else (sp.setIndex id n).queue.entries p } }
    with hsp3
  have h3len : sp3.qlen = n + 1 := rfl
  have h3qid : ∀ p, sp3.qid p = if p = n then id else sp.qid p := fun p => rfl
  have h3det : ∀ id', sp3.storeDetails id' = (sp.setIndex id n).storeDetails id' := fun _ => rfl
  have h3key : ∀ p, p ≠ n → sp3.key p = sp.key p := by
    intro p hp
    unfold key detailAt
    rw [h3qid p, if_neg hp, h3det, setIndex_details]
    by_cases h : sp.qid p = id <;> simp [h]
  have hqid_ne : ∀ p, p < n → sp.qid p ≠ id := by
    intro p hp h
    exact hnq ⟨p, hp, h⟩
  have h3idx : sp3.IdxOK := by
    refine ⟨?_, ?_, ?_, ?_⟩
    · intro p hp q hq hpq
      rw [h3len] at hp hq
      rw [h3qid, h3qid] at hpq
      by_cases hpn : p = n
      · by_cases hqn : q = n
        · omega
        · rw [if_pos hpn, if_neg hqn] at hpq
          exact absurd hpq.symm (hqid_ne q (by omega))
      · by_cases hqn : q = n
        · rw [if_neg hpn, if_pos hqn] at hpq
          exact absurd hpq (hqid_ne p (by omega))
        · rw [if_neg hpn, if_neg hqn] at hpq
          exact inj p (by omega) q (by omega) hpq
    · intro p hp
      rw [h3len] at hp
      rw [h3qid]
      by_cases hpn : p = n
      · rw [if_pos hpn]
        show id ∈ sp.storeIDs
        exact hmem
      · rw [if_neg hpn]
        show sp.qid p ∈ sp.storeIDs
        exact sub p (by omega)
    · intro p hp
      rw [h3len] at hp
      rw [h3qid, h3det]
      by_cases hpn : p = n
      · rw [if_pos hpn, setIndex_details, if_pos rfl, hpn]
      · rw [if_neg hpn, setIndex_details, if_neg (hqid_ne p (by omega))]
        exact pos p (by omega)
    · intro id' hmem' hnq'
      have hne' : id' ≠ id := by
        intro h
        exact hnq' ⟨n, by rw [h3len]; omega, by rw [h3qid, if_pos rfl, h]⟩
      have hnq'' : ¬ sp.inQueue id' := by
        rintro ⟨p, hp, hqp⟩
        exact hnq' ⟨p, by rw [h3len]; omega, by rw [h3qid, if_neg (by omega)]; exact hqp⟩
      rw [h3det, setIndex_details, if_neg hne']
      exact neg id' hmem' hnq''
  have h3up : sp3.UpInv n := by
    constructor
    · intro k hk hk0 hkn
      rw [h3len] at hk
      have hklt : k < n := by omega
      have hpar : (k - 1) / 2 < n := by omega
      rw [pqLess_def, h3key k (by omega), h3key _ (by omega), ← pqLess_def]
      exact hHeap k hklt hk0
    · intro hn0 c hc hcc
      rw [h3len] at hc
      omega
  have := pqUpGo_heapOK n sp3 n h3up (by rw [h3len]; omega) (le_refl n)
  have hidx := pqUpGo_idxOK n sp3 n (by rw [h3len]; omega) h3idx
  exact ⟨hidx, this⟩

end StorePool

namespace StorePool

theorem pqPop_spec (sp : StorePool) (hInv : sp.Inv) (hne : 0 < sp.qlen) :
    (sp.pqPop).2 = sp.qid 0 ∧
    (sp.pqPop).1.Inv ∧
    (sp.pqPop).1.qlen = sp.qlen - 1 ∧
    (sp.pqPop).1.storeIDs = sp.storeIDs ∧
    (sp.pqPop).1.timeUntilStoreDead = sp.timeUntilStoreDead ∧
    (sp.pqPop).1.failedReservationsTimeout = sp.failedReservationsTimeout ∧
    (sp.pqPop).1.declinedReservationsTimeout = sp.declinedReservationsTimeout ∧
    (¬ (sp.pqPop).1.inQueue (sp.qid 0)) ∧
    (∀ x, (sp.pqPop).1.inQueue x → sp.inQueue x) ∧
    (∀ x, sp.inQueue x → x ≠ sp.qid 0 → (sp.pqPop).1.inQueue x) ∧
    ((sp.pqPop).1.storeDetails (sp.qid 0)).index = -1 ∧
    (∀ id, detailFrame ((sp.pqPop).1.storeDetails id) (sp.storeDetails id)) := by
  obtain ⟨⟨inj, sub, pos, neg⟩, hHeap⟩ := hInv
  set n := sp.qlen - 1 with hn
  have h0lt : 0 < sp.qlen := hne
  have hnlt : n < sp.qlen := by omega
  set sp1 := sp.pqSwap 0 n with hsp1
  set r := sp1.pqDownGo (n - 0) 0 n with hr
  have heq : sp.pqPop =
      ({ r.1.setIndex (r.1.qid n) (-1) with queue :=
        { (r.1.setIndex (r.1.qid n) (-1)).queue with length := n } }, r.1.qid n) := rfl
  have h1len : sp1.qlen = sp.qlen := pqSwap_qlen sp 0 n
  have h1idx : sp1.IdxOK := pqSwap_idxOK sp 0 n h0lt hnlt ⟨inj, sub, pos, neg⟩
  have hd1 : sp1.DownInv1 0 n := by
    intro k hk hk0 _ hkp
    rw [hsp1, pqSwap_pqLess_swapIdx]
    have e1 : swapIdx 0 n k = k := by unfold swapIdx; split_ifs <;> omega
    have e2 : swapIdx 0 n ((k - 1) / 2) = (k - 1) / 2 := by
      unfold swapIdx
      have h1 : (k - 1) / 2 ≠ 0 := hkp
      have h2 : (k - 1) / 2 ≠ n := by omega
      simp [h1, h2]
    rw [e1, e2]
    exact hHeap k (by omega) hk0
  have hd2 : sp1.DownInv2 0 n := fun h => absurd h (lt_irrefl 0)
  have hle : n ≤ sp1.qlen := by omega
  obtain ⟨c1, c2, c3, c4⟩ := pqDownGo_spec (n - 0) sp1 0 n hd1 hd2 hle (le_refl _)
  rw [← hr] at c1 c2 c3 c4
  have hprefix : ∀ k, k < n → 0 < k → r.1.pqLess k ((k - 1) / 2) = false := by
    intro k hk hk0
    by_cases hkr : k = r.2
    · rw [hkr]
      exact (c3 (by omega)).2
    · exact c4 k hk hk0 hkr
  obtain ⟨f1, f2, f3, f4, f5, f6, f7⟩ := pqDownGo_siftFrame (n - 0) sp1 0 n hle
  rw [← hr] at f1 f2 f3 f4 f5
  simp only [← hr] at f6 f7
  have ridx : r.1.IdxOK := by rw [hr]; exact pqDownGo_idxOK (n - 0) sp1 0 n hle h1idx
  obtain ⟨rinj, rsub, rpos, rneg⟩ := ridx
  have rqlen : r.1.qlen = sp.qlen := by rw [f5, h1len]
  have hqidn : r.1.qid n = sp.qid 0 := by
    rw [hr, pqDownGo_qid_ge (n - 0) sp1 0 n n (le_refl n), hsp1, pqSwap_qid_swapIdx]
    have : swapIdx 0 n n = 0 := by unfold swapIdx; split_ifs <;> omega
    rw [this]
  have hfinqid : ∀ p, (sp.pqPop).1.qid p = r.1.qid p := by
    intro p
    rw [heq]
    rfl
  have hfinlen : (sp.pqPop).1.qlen = n := by rw [heq]; rfl
  have hfindet : ∀ id, (sp.pqPop).1.storeDetails id = (r.1.setIndex (r.1.qid n) (-1)).storeDetails id := by
    intro id
    rw [heq]
  have hfinkey : ∀ p, (sp.pqPop).1.key p = r.1.key p := by
    intro p
    unfold key detailAt
    rw [hfinqid, hfindet, setIndex_details]
    by_cases h : r.1.qid p = r.1.qid n <;> simp [h]
  have hfinless : ∀ a b, (sp.pqPop).1.pqLess a b = r.1.pqLess a b := by
    intro a b
    rw [pqLess_def, pqLess_def, hfinkey, hfinkey]
  have hinQ : ∀ x, (sp.pqPop).1.inQueue x ↔ (∃ p, p < n ∧ r.1.qid p = x) := by
    intro x
    constructor
    · rintro ⟨p, hp, hqp⟩
      rw [hfinlen] at hp
      rw [hfinqid] at hqp
      exact ⟨p, hp, hqp⟩
    · rintro ⟨p, hp, hqp⟩
      exact ⟨p, by rw [hfinlen]; exact hp, by rw [hfinqid]; exact hqp⟩
  have hstoreIDs : (sp.pqPop).1.storeIDs = sp.storeIDs := by
    rw [heq]
    show (r.1.setIndex (r.1.qid n) (-1)).storeIDs = sp.storeIDs
    rw [setIndex_storeIDs, f1, hsp1, pqSwap_storeIDs]
  have hnotin : ¬ (sp.pqPop).1.inQueue (sp.qid 0) := by
    rw [hinQ]
    rintro ⟨p, hp, hqp⟩
    rw [← hqidn] at hqp
    have := rinj p (by omega) n (by omega) hqp
    omega
  refine ⟨by rw [heq]; exact hqidn, ?_, by rw [hfinlen], hstoreIDs, ?_, ?_, ?_, hnotin,
    ?_, ?_, ?_, ?_⟩
  · -- invariant of the shrunken pool
    refine ⟨⟨?_, ?_, ?_, ?_⟩, ?_⟩
    · intro p hp q hq hpq
      rw [hfinlen] at hp hq
      rw [hfinqid, hfinqid] at hpq
      exact rinj p (by omega) q (by omega) hpq
    · intro p hp
      rw [hfinlen] at hp
      rw [hfinqid, hstoreIDs]
      have := rsub p (by omega)
      rw [f1, hsp1, pqSwap_storeIDs] at this
      exact this
    · intro p hp
      rw [hfinlen] at hp
      rw [hfinqid, hfindet, setIndex_details]
      have hne' : r.1.qid p ≠ r.1.qid n := by
        intro h
        have := rinj p (by omega) n (by omega) h
        omega
      rw [if_neg hne']
      exact rpos p (by omega)
    · intro id hmem hnq
      rw [hstoreIDs] at hmem
      rw [hfindet, setIndex_details]
      by_cases hidn : id = r.1.qid n
      · rw [if_pos hidn]
      · rw [if_neg hidn]
        refine rneg id ?_ ?_
        · rw [f1, hsp1, pqSwap_storeIDs]
          exact hmem
        · rintro ⟨p, hp, hqp⟩
          rw [rqlen] at hp
          by_cases hpn : p = n
          · rw [hpn] at hqp
            exact hidn hqp.symm
          · exact hnq ((hinQ id).mpr ⟨p, by omega, hqp⟩)
    · intro k hk hk0
      rw [hfinlen] at hk
      rw [hfinless]
      exact hprefix k hk hk0
  · rw [heq]
    show (r.1.setIndex (r.1.qid n) (-1)).timeUntilStoreDead = sp.timeUntilStoreDead
    rw [show (r.1.setIndex (r.1.qid n) (-1)).timeUntilStoreDead = r.1.timeUntilStoreDead from rfl,
      f2, hsp1]
    rfl
  · rw [heq]
    show (r.1.setIndex (r.1.qid n) (-1)).failedReservationsTimeout = sp.failedReservationsTimeout
    rw [show (r.1.setIndex (r.1.qid n) (-1)).failedReservationsTimeout =
      r.1.failedReservationsTimeout from rfl, f3, hsp1]
    rfl
  · rw [heq]
    show (r.1.setIndex (r.1.qid n) (-1)).declinedReservationsTimeout = sp.declinedReservationsTimeout
    rw [show (r.1.setIndex (r.1.qid n) (-1)).declinedReservationsTimeout =
      r.1.declinedReservationsTimeout from rfl, f4, hsp1]
    rfl
  · -- membership of the shrunken queue implies membership of the original
    intro x hx
    rw [hinQ] at hx
    obtain ⟨p, hp, hqp⟩ := hx
    have hr1 : r.1.inQueue x := ⟨p, by omega, hqp⟩
    rw [← f6] at hr1
    rw [hsp1, pqSwap_inQueue sp 0 n h0lt hnlt] at hr1
    exact hr1
  · -- survivors stay in the queue
    intro x hx hxne
    have hx1 : sp1.inQueue x := by
      rw [hsp1, pqSwap_inQueue sp 0 n h0lt hnlt]
      exact hx
    have hxr : r.1.inQueue x := (f6 x).mp hx1
    obtain ⟨p, hp, hqp⟩ := hxr
    rw [rqlen] at hp
    by_cases hpn : p = n
    · rw [hpn] at hqp
      rw [← hqp, hqidn] at hxne
      exact absurd rfl hxne
    · exact (hinQ x).mpr ⟨p, by omega, hqp⟩
  · rw [hfindet, ← hqidn, setIndex_details, if_pos rfl]
  · intro id
    have st1 : detailFrame ((sp.pqPop).1.storeDetails id)
        ((r.1.setIndex (r.1.qid n) (-1)).storeDetails id) := by
      rw [hfindet]
      exact detailFrame_refl _
    refine detailFrame_trans st1 (detailFrame_trans (setIndex_detailFrame _ _ _ _)
      (detailFrame_trans (f7 id) ?_))
    rw [hsp1]
    exact pqSwap_detailFrame sp 0 n id

end StorePool

namespace StorePool

theorem pqFix_inv (sp : StorePool) (i : Nat) (hIdx : sp.IdxOK) (hi : i < sp.qlen)
    (hd1 : sp.DownInv1 i sp.qlen) (hd2 : sp.DownInv2 i sp.qlen) : (sp.pqFix i).Inv := by
  set n := sp.qlen with hn
  set r := sp.pqDownGo (n - i) i n with hr
  have heq : sp.pqFix i = if r.2 = i then r.1.pqUp i else r.1 := rfl
  obtain ⟨c1, c2, c3, c4⟩ := pqDownGo_spec (n - i) sp i n hd1 hd2 (le_refl n) (le_refl _)
  rw [← hr] at c1 c2 c3 c4
  have ridx : r.1.IdxOK := by rw [hr]; exact pqDownGo_idxOK _ sp i n (le_refl n) hIdx
  have rqlen : r.1.qlen = sp.qlen := by
    have hfr := pqDownGo_siftFrame (n - i) sp i n (le_refl n)
    rw [← hr] at hfr
    exact hfr.2.2.2.2.1
  rw [heq]
  by_cases hstop : r.2 = i
  · rw [if_pos hstop]
    have hre : r.1 = sp := c2 hstop
    rw [hre]
    have hup : sp.UpInv i := by
      refine ⟨?_, hd2⟩
      intro k hk hk0 hki
      have := c4 k (by omega) hk0 (by omega)
      rw [hre] at this
      exact this
    exact ⟨pqUpGo_idxOK i sp i hi hIdx, pqUpGo_heapOK i sp i hup hi (le_refl i)⟩
  · rw [if_neg hstop]
    refine ⟨ridx, ?_⟩
    intro k hk hk0
    rw [rqlen] at hk
    by_cases hkr : k = r.2
    · rw [hkr]
      exact (c3 (by omega)).2
    · exact c4 k (by omega) hk0 hkr

theorem updateDetail_key_ne (sp : StorePool) (id : StoreID) (f : storeDetail → storeDetail)
    (q : Nat) (h : sp.qid q ≠ id) : (sp.updateDetail id f).key q = sp.key q := by
  unfold key detailAt
  rw [updateDetail_qid, updateDetail_details, if_neg h]

theorem enqueue_fresh (sp : StorePool) (id : StoreID) (h : (sp.storeDetails id).index < 0) :
    sp.enqueue id = sp.pqPush id := by
  unfold enqueue
  rw [if_pos h]

theorem updateDetail_enqueue_inv (sp : StorePool) (id : StoreID)
    (f : storeDetail → storeDetail) (hf : ∀ d, (f d).index = d.index)
    (hInv : sp.Inv) (hmem : id ∈ sp.storeIDs) :
    ((sp.updateDetail id f).enqueue id).Inv := by
  obtain ⟨⟨inj, sub, pos, neg⟩, hHeap⟩ := hInv
  set sp1 := sp.updateDetail id f with hsp1
  have h1idx : sp1.IdxOK := by
    refine ⟨?_, ?_, ?_, ?_⟩
    · intro p hp q hq hpq
      exact inj p hp q hq hpq
    · intro p hp
      exact sub p hp
    · intro p hp
      show (sp1.storeDetails (sp.qid p)).index = (p : Int)
      rw [hsp1, updateDetail_details]
      by_cases h : sp.qid p = id
      · rw [if_pos h, hf, ← h]
        exact pos p hp
      · rw [if_neg h]
        exact pos p hp
    · intro id' hmem' hnq'
      show (sp1.storeDetails id').index = -1
      rw [hsp1, updateDetail_details]
      by_cases h : id' = id
      · rw [if_pos h, hf]
        have := neg id' hmem' hnq'
        rw [h] at this
        exact this
      · rw [if_neg h]
        exact neg id' hmem' hnq'
  have h1index : (sp1.storeDetails id).index = (sp.storeDetails id).index := by
    rw [hsp1, updateDetail_details_same, hf]
  by_cases hix : (sp1.storeDetails id).index < 0
  · rw [show sp1.enqueue id = sp1.pqPush id from enqueue_fresh sp1 id hix]
    have hnq : ¬ sp.inQueue id := by
      rintro ⟨p, hp, hqp⟩
      have := pos p hp
      rw [hqp] at this
      rw [h1index, this] at hix
      omega
    have h1heap : sp1.HeapOK := by
      intro k hk hk0
      have hk2 : k < sp.qlen := hk
      have e1 : sp.qid k ≠ id := fun h => hnq ⟨k, hk2, h⟩
      have e2 : sp.qid ((k - 1) / 2) ≠ id := fun h => hnq ⟨(k - 1) / 2, by omega, h⟩
      rw [pqLess_def, hsp1, updateDetail_key_ne sp id f k e1,
        updateDetail_key_ne sp id f _ e2, ← pqLess_def]
      exact hHeap k hk hk0
    exact pqPush_inv sp1 id ⟨h1idx, h1heap⟩ hmem hnq
  · have hixpos : 0 ≤ (sp.storeDetails id).index := by omega
    have hinq : sp.inQueue id := by
      by_contra hnq
      have := neg id hmem hnq
      rw [this] at hixpos
      omega
    obtain ⟨p, hp, hqp⟩ := hinq
    have hpidx : (sp.storeDetails id).index = (p : Int) := by
      rw [← hqp]
      exact pos p hp
    have heq2 : sp1.enqueue id = sp1.pqFix p := by
      unfold enqueue
      rw [if_neg hix, h1index, hpidx]
      simp
    rw [heq2]
    have hqid_inj : ∀ q, q < sp.qlen → sp.qid q = id → q = p := by
      intro q hq h
      exact inj q hq p hp (h.trans hqp.symm)
    refine pqFix_inv sp1 p h1idx hp ?_ ?_
    · intro k hk hk0 hki hkpi
      have hk2 : k < sp.qlen := hk
      have e1 : sp.qid k ≠ id := fun h => hki (hqid_inj k hk2 h)
      have e2 : sp.qid ((k - 1) / 2) ≠ id := fun h => hkpi (hqid_inj _ (by omega) h)
      show sp1.pqLess k ((k - 1) / 2) = false
      rw [pqLess_def, hsp1, updateDetail_key_ne sp id f k e1,
        updateDetail_key_ne sp id f _ e2, ← pqLess_def]
      exact hHeap k hk2 hk0
    · intro hp0 c hc hcc
      have hc2 : c < sp.qlen := hc
      have hcp : c ≠ p := by omega
      have hgp : (p - 1) / 2 ≠ p := by omega
      have e1 : sp.qid c ≠ id := fun h => hcp (hqid_inj c hc2 h)
      have e2 : sp.qid ((p - 1) / 2) ≠ id := fun h => hgp (hqid_inj _ (by omega) h)
      show sp1.pqLess c ((p - 1) / 2) = false
      rw [pqLess_def, hsp1, updateDetail_key_ne sp id f c e1,
        updateDetail_key_ne sp id f _ e2]
      have hedge_c : sp.pqLess c ((c - 1) / 2) = false := hHeap c hc2 (by omega)
      have hcpar : (c - 1) / 2 = p := by omega
      rw [hcpar, pqLess_def] at hedge_c
      have hedge_p : sp.pqLess p ((p - 1) / 2) = false := hHeap p hp hp0
      rw [pqLess_def] at hedge_p
      exact Timestamp.notLess_trans hedge_p hedge_c

end StorePool

namespace StorePool

theorem getStoreDetailLocked_known (sp : StorePool) (id : StoreID) (now : Timestamp)
    (h : id ∈ sp.storeIDs) : sp.getStoreDetailLocked id now = sp := by
  unfold getStoreDetailLocked
  rw [if_pos h]

theorem updateDetail_idxOK (sp : StorePool) (id : StoreID) (f : storeDetail → storeDetail)
    (hf : ∀ d, (f d).index = d.index) (h : sp.IdxOK) : (sp.updateDetail id f).IdxOK := by
  obtain ⟨inj, sub, pos, neg⟩ := h
  refine ⟨fun p hp q hq hpq => inj p hp q hq hpq, fun p hp => sub p hp, ?_, ?_⟩
  · intro p hp
    show ((sp.updateDetail id f).storeDetails (sp.qid p)).index = (p : Int)
    rw [updateDetail_details]
    by_cases hqp : sp.qid p = id
    · rw [if_pos hqp, hf, ← hqp]
      exact pos p hp
    · rw [if_neg hqp]
      exact pos p hp
  · intro id' hmem' hnq'
    show ((sp.updateDetail id f).storeDetails id').index = -1
    rw [updateDetail_details]
    by_cases h' : id' = id
    · rw [if_pos h', hf]
      have := neg id' hmem' hnq'
      rw [h'] at this
      exact this
    · rw [if_neg h']
      exact neg id' hmem' hnq'

theorem updateDetail_inv (sp : StorePool) (id : StoreID) (f : storeDetail → storeDetail)
    (hfi : ∀ d, (f d).index = d.index)
    (hft : ∀ d, (f d).lastUpdatedTime = d.lastUpdatedTime)
    (h : sp.Inv) : (sp.updateDetail id f).Inv := by
  obtain ⟨hIdx, hHeap⟩ := h
  refine ⟨updateDetail_idxOK sp id f hfi hIdx, ?_⟩
  have hkey : ∀ q, (sp.updateDetail id f).key q = sp.key q := by
    intro q
    unfold key detailAt
    rw [updateDetail_qid, updateDetail_details]
    by_cases h' : sp.qid q = id
    · rw [if_pos h', hft, h']
    · rw [if_neg h']
  intro k hk hk0
  have hk2 : k < sp.qlen := hk
  rw [pqLess_def, hkey, hkey, ← pqLess_def]
  exact hHeap k hk2 hk0

theorem getStoreDetailLocked_fresh (sp : StorePool) (id : StoreID) (now : Timestamp)
    (h : id ∉ sp.storeIDs) :
    (sp.getStoreDetailLocked id now).storeIDs = sp.storeIDs ++ [id] ∧
    (sp.getStoreDetailLocked id now).qlen = sp.qlen + 1 ∧
    (sp.getStoreDetailLocked id now).timeUntilStoreDead = sp.timeUntilStoreDead ∧
    (sp.getStoreDetailLocked id now).failedReservationsTimeout = sp.failedReservationsTimeout ∧
    (sp.getStoreDetailLocked id now).declinedReservationsTimeout = sp.declinedReservationsTimeout ∧
    (sp.getStoreDetailLocked id now).inQueue id ∧
    (∀ x, (sp.getStoreDetailLocked id now).inQueue x ↔ (x = id ∨ sp.inQueue x)) ∧
    ((sp.getStoreDetailLocked id now).storeDetails id).desc = none ∧
    ((sp.getStoreDetailLocked id now).storeDetails id).dead = false ∧
    ((sp.getStoreDetailLocked id now).storeDetails id).lastUpdatedTime = now ∧
    ((sp.getStoreDetailLocked id now).storeDetails id).throttledUntil = 0 ∧
    ((sp.getStoreDetailLocked id now).storeDetails id).timesDied = 0 ∧
    (∀ rid, ((sp.getStoreDetailLocked id now).storeDetails id).deadReplicas rid = []) ∧
    (∀ id', id' ≠ id →
      detailFrame ((sp.getStoreDetailLocked id now).storeDetails id') (sp.storeDetails id')) := by
  have heq : sp.getStoreDetailLocked id now =
      (({ sp with
          storeDetails := Function.update sp.storeDetails id newStoreDetail
          storeIDs := sp.storeIDs ++ [id] } : StorePool).updateDetail id
            (fun d => d.markAlive now none)).enqueue id := by
    unfold getStoreDetailLocked
    rw [if_neg h]
  set sp2 : StorePool := { sp with
    storeDetails := Function.update sp.storeDetails id newStoreDetail
    storeIDs := sp.storeIDs ++ [id] } with hsp2
  set sp3 := sp2.updateDetail id (fun d => d.markAlive now none) with hsp3
  have h2det : sp2.storeDetails id = newStoreDetail := by
    show Function.update sp.storeDetails id newStoreDetail id = newStoreDetail
    rw [Function.update_same]
  have h2det_ne : ∀ id', id' ≠ id → sp2.storeDetails id' = sp.storeDetails id' := by
    intro id' h'
    show Function.update sp.storeDetails id newStoreDetail id' = sp.storeDetails id'
    rw [Function.update_noteq h']
  have h3det : sp3.storeDetails id = newStoreDetail.markAlive now none := by
    rw [hsp3, updateDetail_details_same, h2det]
  have h3det_ne : ∀ id', id' ≠ id → sp3.storeDetails id' = sp.storeDetails id' := by
    intro id' h'
    rw [hsp3, updateDetail_details_ne _ _ _ _ h', h2det_ne id' h']
  have h3ix : (sp3.storeDetails id).index = -1 := by rw [h3det]; rfl
  have henq : sp.getStoreDetailLocked id now = sp3.pqPush id := by
    rw [heq]
    exact enqueue_fresh sp3 id (by rw [h3ix]; omega)
  obtain ⟨g1, g2, g3, g4, g5, g6, g7⟩ := pqPush_frame sp3 id
  rw [henq]
  have h3q : ∀ x, sp3.inQueue x ↔ sp.inQueue x := fun x => Iff.rfl
  refine ⟨?_, ?_, ?_, ?_, ?_, ?_, ?_, ?_, ?_, ?_, ?_, ?_, ?_, ?_⟩
  · rw [g2]; rfl
  · rw [g1]; rfl
  · rw [g3]; rfl
  · rw [g4]; rfl
  · rw [g5]; rfl
  · rw [g7]; left; rfl
  · intro x
    rw [g7]
    exact or_congr Iff.rfl (h3q x)
  · have := (g6 id).1
    rw [h3det] at this
    exact this
  · have := (g6 id).2.1
    rw [h3det] at this
    exact this
  · have := (g6 id).2.2.2.2.2.1
    rw [h3det] at this
    exact this
  · have := (g6 id).2.2.2.2.1
    rw [h3det] at this
    exact this
  · have := (g6 id).2.2.1
    rw [h3det] at this
    exact this
  · intro rid
    have := (g6 id).2.2.2.2.2.2
    rw [h3det] at this
    rw [this]
    rfl
  · intro id' h'
    have := g6 id'
    rw [h3det_ne id' h'] at this
    exact this

theorem getStoreDetailLocked_mem (sp : StorePool) (id : StoreID) (now : Timestamp) :
    id ∈ (sp.getStoreDetailLocked id now).storeIDs := by
  by_cases h : id ∈ sp.storeIDs
  · rw [getStoreDetailLocked_known sp id now h]
    exact h
  · rw [(getStoreDetailLocked_fresh sp id now h).1]
    exact List.mem_append_right _ (List.mem_singleton.mpr rfl)

theorem getStoreDetailLocked_inv (sp : StorePool) (id : StoreID) (now : Timestamp)
    (hInv : sp.Inv) : (sp.getStoreDetailLocked id now).Inv := by
  by_cases h : id ∈ sp.storeIDs
  · rw [getStoreDetailLocked_known sp id now h]
    exact hInv
  · obtain ⟨⟨inj, sub, pos, neg⟩, hHeap⟩ := hInv
    have heq : sp.getStoreDetailLocked id now =
        (({ sp with
            storeDetails := Function.update sp.storeDetails id newStoreDetail
            storeIDs := sp.storeIDs ++ [id] } : StorePool).updateDetail id
              (fun d => d.markAlive now none)).enqueue id := by
      unfold getStoreDetailLocked
      rw [if_neg h]
    set sp2 : StorePool := { sp with
      storeDetails := Function.update sp.storeDetails id newStoreDetail
      storeIDs := sp.storeIDs ++ [id] } with hsp2
    set sp3 := sp2.updateDetail id (fun d => d.markAlive now none) with hsp3
    have hq_ne : ∀ p, p < sp.qlen → sp.qid p ≠ id := by
      intro p hp hcontra
      exact h (hcontra ▸ sub p hp)
    have h3det_ne : ∀ id', id' ≠ id → sp3.storeDetails id' = sp.storeDetails id' := by
      intro id' h'
      rw [hsp3, updateDetail_details_ne _ _ _ _ h']
      show Function.update sp.storeDetails id newStoreDetail id' = sp.storeDetails id'
      rw [Function.update_noteq h']
    have h3det : sp3.storeDetails id = newStoreDetail.markAlive now none := by
      rw [hsp3, updateDetail_details_same]
      show (Function.update sp.storeDetails id newStoreDetail id).markAlive now none = _
      rw [Function.update_same]
    have h3ix : (sp3.storeDetails id).index = -1 := by rw [h3det]; rfl
    have h3nq : ¬ sp3.inQueue id := by
      rintro ⟨p, hp, hqp⟩
      exact hq_ne p hp hqp
    have h3inv : sp3.Inv := by
      refine ⟨⟨?_, ?_, ?_, ?_⟩, ?_⟩
      · intro p hp q hq' hpq
        exact inj p hp q hq' hpq
      · intro p hp
        show sp.qid p ∈ sp.storeIDs ++ [id]
        exact List.mem_append_left _ (sub p hp)
      · intro p hp
        show (sp3.storeDetails (sp.qid p)).index = (p : Int)
        rw [h3det_ne _ (hq_ne p hp)]
        exact pos p hp
      · intro id' hmem' hnq'
        show (sp3.storeDetails id').index = -1
        by_cases h' : id' = id
        · rw [h']
          exact h3ix
        · rw [h3det_ne id' h']
          have hmem'' : id' ∈ sp.storeIDs := by
            rcases List.mem_append.mp hmem' with h1 | h1
            · exact h1
            · exact absurd (List.mem_singleton.mp h1) h'
          exact neg id' hmem'' hnq'
      · intro k hk hk0
        have hk2 : k < sp.qlen := hk
        have hkey : ∀ q, q < sp.qlen → sp3.key q = sp.key q := by
          intro q hq'
          unfold key detailAt
          show (sp3.storeDetails (sp.qid q)).lastUpdatedTime = _
          rw [h3det_ne _ (hq_ne q hq')]
        rw [pqLess_def, hkey k hk2, hkey _ (by omega), ← pqLess_def]
        exact hHeap k hk2 hk0
    rw [heq, enqueue_fresh sp3 id (by rw [h3ix]; omega)]
    refine pqPush_inv sp3 id h3inv ?_ h3nq
    exact List.mem_append_right _ (List.mem_singleton.mpr rfl)

end StorePool

namespace StorePool

theorem storeGossipUpdate_inv (sp : StorePool) (desc : StoreDescriptor) (now : Timestamp)
    (h : sp.Inv) : (sp.storeGossipUpdate desc now).Inv := by
  unfold storeGossipUpdate
  exact updateDetail_enqueue_inv _ _ _ (fun d => rfl)
    (getStoreDetailLocked_inv sp _ now h) (getStoreDetailLocked_mem sp _ now)

theorem deadReplicasGossipUpdate_inv (sp : StorePool) (payload : StoreDeadReplicas)
    (now : Timestamp) (h : sp.Inv) : (sp.deadReplicasGossipUpdate payload now).Inv := by
  unfold deadReplicasGossipUpdate
  exact updateDetail_inv _ _ _ (fun d => rfl) (fun d => rfl)
    (getStoreDetailLocked_inv sp _ now h)

theorem workerIteration_inv (sp : StorePool) (now : Timestamp) (h : sp.Inv) :
    (sp.workerIteration now).1.Inv := by
  unfold workerIteration
  cases hpeek : sp.peek with
  | none => exact h
  | some headID =>
    have hne : 0 < sp.qlen := by
      unfold peek at hpeek
      by_cases h0 : sp.qlen = 0
      · rw [if_pos h0] at hpeek
        cases hpeek
      · omega
    simp only
    by_cases hcond : (sp.storeDetails headID).lastUpdatedTime.wallTime +
        sp.timeUntilStoreDead < now.wallTime
    · rw [if_pos hcond]
      have hdeq : sp.dequeue = ((sp.pqPop).1, some (sp.pqPop).2) := by
        unfold dequeue
        rw [if_neg (by omega)]
      rw [hdeq]
      exact updateDetail_inv _ _ _ (fun d => rfl) (fun d => rfl) ((pqPop_spec sp h hne).2.1)
    · rw [if_neg hcond]
      exact h

theorem throttle_inv (sp : StorePool) (reason : throttleReason) (id : StoreID)
    (now : Timestamp) (h : sp.Inv) : (sp.throttle reason id now).Inv := by
  unfold throttle
  cases reason with
  | declined =>
    exact updateDetail_inv _ _ _ (fun d => rfl) (fun d => rfl)
      (getStoreDetailLocked_inv sp _ now h)
  | failed =>
    exact updateDetail_inv _ _ _ (fun d => rfl) (fun d => rfl)
      (getStoreDetailLocked_inv sp _ now h)

theorem updateRemoteCapacityEstimate_inv (sp : StorePool) (id : StoreID)
    (cap : StoreCapacity) (now : Timestamp) (h : sp.Inv) :
    (sp.updateRemoteCapacityEstimate id cap now).Inv := by
  unfold updateRemoteCapacityEstimate
  have hg := getStoreDetailLocked_inv sp id now h
  split
  · exact hg
  · exact updateDetail_inv _ _ _ (fun d => rfl) (fun d => rfl) hg

theorem deadReplicasLoop_inv (rangeID : RangeID) (repls : List ReplicaDescriptor) :
    ∀ (sp : StorePool) (now : Timestamp), sp.Inv →
    (sp.deadReplicasLoop rangeID repls now).2.Inv := by
  induction repls with
  | nil => intro sp now h; exact h
  | cons repl rest ih =>
    intro sp now h
    unfold deadReplicasLoop
    simp only
    exact ih _ now (getStoreDetailLocked_inv sp _ now h)

end StorePool

theorem applyOp_inv (sp : StorePool) (op : Op) (h : sp.Inv) : (applyOp sp op).Inv := by
  cases op with
  | gossipStore desc now => exact sp.storeGossipUpdate_inv desc now h
  | gossipDeadReplicas payload now => exact sp.deadReplicasGossipUpdate_inv payload now h
  | workerIter now => exact sp.workerIteration_inv now h
  | throttleOp reason id now => exact sp.throttle_inv reason id now h
  | updateCapacity id cap now => exact sp.updateRemoteCapacityEstimate_inv id cap now h
  | queryDeadReplicas rangeID repls now =>
    exact StorePool.deadReplicasLoop_inv rangeID repls sp now h

theorem runOps_inv (ops : List Op) : ∀ (sp : StorePool), sp.Inv → (runOps sp ops).Inv := by
  induction ops with
  | nil => intro sp h; exact h
  | cons op rest ih =>
    intro sp h
    exact ih (applyOp sp op) (applyOp_inv sp op h)

theorem initialPool_inv (t f d : Int) : (initialPool t f d).Inv := by
  have hq : (initialPool t f d).qlen = 0 := rfl
  have hs : (initialPool t f d).storeIDs = [] := rfl
  refine ⟨⟨?_, ?_, ?_, ?_⟩, ?_⟩
  · intro p hp
    rw [hq] at hp
    exact absurd hp (by omega)
  · intro p hp
    rw [hq] at hp
    exact absurd hp (by omega)
  · intro p hp
    rw [hq] at hp
    exact absurd hp (by omega)
  · intro id hmem _
    rw [hs] at hmem
    exact absurd hmem (List.not_mem_nil id)
  · intro k hk
    rw [hq] at hk
    exact absurd hk (by omega)

theorem match'_available_iff (sd : storeDetail) (now : Int) (c : Constraints) :
    sd.match' now c = .available ↔
      sd.dead = false ∧ ∃ d, sd.desc = some d ∧
        (∀ cons ∈ c.constraints, cons.value ∈ d.combinedAttrs.attrs) ∧
        ¬ now < sd.throttledUntil := by
  unfold storeDetail.match'
  cases hd : sd.dead with
  | true => simp
  | false =>
    cases hdesc : sd.desc with
    | none => simp
    | some d =>
      simp only [Bool.false_eq_true, if_false, Option.some.injEq]
      constructor
      · intro h
        split_ifs at h with h1 h2
        all_goals simp at h
        refine ⟨trivial, d, rfl, ?_, h2⟩
        intro cons hc
        exact List.elem_iff.mp ((List.all_eq_true.mp h1) cons hc)
      · rintro ⟨-, d2, hd2, hcons, hth⟩
        cases hd2
        have hall : c.constraints.all
            (fun cons => d.combinedAttrs.attrs.contains cons.value) = true :=
          List.all_eq_true.mpr (fun x hx => List.elem_iff.mpr (hcons x hx))
        rw [if_pos hall, if_neg hth]

theorem match'_ne_dead (sd : storeDetail) (now : Int) (c : Constraints)
    (h : sd.match' now c ≠ .dead) : sd.dead = false ∧ ∃ d, sd.desc = some d := by
  unfold storeDetail.match' at h
  cases hd : sd.dead with
  | true => rw [hd] at h; simp at h
  | false =>
    rw [hd] at h
    simp only [Bool.false_eq_true, if_false] at h
    cases hdesc : sd.desc with
    | none => rw [hdesc] at h; simp at h
    | some d => exact ⟨rfl, d, rfl⟩

theorem getStoreList_fold (sp : StorePool) (c : Constraints) (now : Int) :
    ∀ (ids : List StoreID) (acc : StoreList × Nat × Nat),
    (ids.foldl (sp.storeListStep c now) acc).1.stores =
      acc.1.stores ++ ids.filterMap (fun id =>
        match (sp.storeDetails id).match' now c with
        | .available => (sp.storeDetails id).desc
        | _ => none) ∧
    (ids.foldl (sp.storeListStep c now) acc).2.1 =
      acc.2.1 + ids.countP (fun id => !((sp.storeDetails id).match' now c == .dead)) ∧
    (ids.foldl (sp.storeListStep c now) acc).2.2 =
      acc.2.2 + ids.countP (fun id => (sp.storeDetails id).match' now c == .throttled) := by
  intro ids
  induction ids with
  | nil =>
    intro acc
    exact ⟨by simp, by simp [List.countP_nil], by simp [List.countP_nil]⟩
  | cons id rest ih =>
    intro acc
    rw [List.foldl_cons]
    obtain ⟨ih1, ih2, ih3⟩ := ih (sp.storeListStep c now acc id)
    rw [List.filterMap_cons, List.countP_cons, List.countP_cons]
    cases hm : (sp.storeDetails id).match' now c with
    | dead =>
      have hstep : sp.storeListStep c now acc id = acc := by
        unfold StorePool.storeListStep
        rw [hm]
      refine ⟨?_, ?_, ?_⟩
      · rw [ih1, hstep]
        try simp [hm]
      · rw [ih2, hstep]
        try simp [hm]
        try decide
        try omega
      · rw [ih3, hstep]
        try simp [hm]
        try decide
        try omega
    | alive =>
      have hstep : sp.storeListStep c now acc id = (acc.1, acc.2.1 + 1, acc.2.2) := by
        unfold StorePool.storeListStep
        rw [hm]
      refine ⟨?_, ?_, ?_⟩
      · rw [ih1, hstep]
        try simp [hm]
      · rw [ih2, hstep]
        try simp [hm]
        try decide
        try omega
      · rw [ih3, hstep]
        try simp [hm]
        try decide
        try omega
    | throttled =>
      have hstep : sp.storeListStep c now acc id = (acc.1, acc.2.1 + 1, acc.2.2 + 1) := by
        unfold StorePool.storeListStep
        rw [hm]
      refine ⟨?_, ?_, ?_⟩
      · rw [ih1, hstep]
        try simp [hm]
      · rw [ih2, hstep]
        try simp [hm]
        try decide
        try omega
      · rw [ih3, hstep]
        try simp [hm]
        try decide
        try omega
    | available =>
      have hstep : sp.storeListStep c now acc id =
          (acc.1.add ((sp.storeDetails id).desc.getD zeroStoreDescriptor),
           acc.2.1 + 1, acc.2.2) := by
        unfold StorePool.storeListStep
        rw [hm]
      obtain ⟨-, d, hd⟩ := match'_ne_dead (sp.storeDetails id) now c (by rw [hm]; simp)
      refine ⟨?_, ?_, ?_⟩
      · rw [ih1, hstep]
        try simp [hm, StoreList.add, hd]
      · rw [ih2, hstep]
        try simp [hm]
        try decide
        try omega
      · rw [ih3, hstep]
        try simp [hm]
        try decide
        try omega

theorem buildDeadReplicasIndex_fold (rs : List ReplicaIdent) :
    ∀ (m : RangeID → List ReplicaDescriptor) (rid : RangeID),
    (rs.foldl (fun (m : RangeID → List ReplicaDescriptor) (r : ReplicaIdent) =>
      Function.update m r.rangeID (m r.rangeID ++ [r.replica])) m) rid =
      m rid ++ (rs.filter (fun r => r.rangeID == rid)).map (fun r => r.replica) := by
  induction rs with
  | nil => intro m rid; simp
  | cons r rest ih =>
    intro m rid
    rw [List.foldl_cons, ih, List.filter_cons]
    by_cases h : r.rangeID = rid
    · rw [if_pos (by simp [h]), Function.update_apply, if_pos h.symm, List.map_cons,
        List.append_assoc, List.singleton_append, h]
    · rw [if_neg (by simp [h]), Function.update_apply, if_neg (fun hc => h hc.symm)]

theorem buildDeadReplicasIndex_eq (rs : List ReplicaIdent) (rid : RangeID) :
    buildDeadReplicasIndex rs rid =
      (rs.filter (fun r => r.rangeID == rid)).map (fun r => r.replica) := by
  unfold buildDeadReplicasIndex
  rw [buildDeadReplicasIndex_fold]
  simp

theorem specDeadReplicaHit_of_mem (sp : StorePool) (rid : RangeID)
    (repl : ReplicaDescriptor) (h : repl.storeID ∈ sp.storeIDs) :
    specDeadReplicaHit sp rid repl =
      ((sp.storeDetails repl.storeID).dead ||
        ((sp.storeDetails repl.storeID).deadReplicas rid).any
          (fun dr => dr.replicaID == repl.replicaID)) := by
  unfold specDeadReplicaHit
  rw [if_pos h]

theorem getStoreDetailLocked_specDeadReplicaHit (sp : StorePool) (id : StoreID)
    (now : Timestamp) (rid : RangeID) (repl : ReplicaDescriptor) :
    specDeadReplicaHit (sp.getStoreDetailLocked id now) rid repl =
      specDeadReplicaHit sp rid repl := by
  by_cases h : id ∈ sp.storeIDs
  · rw [StorePool.getStoreDetailLocked_known sp id now h]
  · obtain ⟨e1, -, -, -, -, -, -, -, e9, -, -, -, e13, e14⟩ :=
      StorePool.getStoreDetailLocked_fresh sp id now h
    unfold specDeadReplicaHit
    by_cases hrs : repl.storeID = id
    · rw [hrs]
      rw [if_neg h, if_pos (by
        rw [e1]
        exact List.mem_append_right _ (List.mem_singleton.mpr rfl))]
      rw [e9, e13 rid]
      simp
    · have hmem_iff : repl.storeID ∈ (sp.getStoreDetailLocked id now).storeIDs ↔
          repl.storeID ∈ sp.storeIDs := by
        rw [e1]
        simp [List.mem_append, hrs]
      by_cases hm : repl.storeID ∈ sp.storeIDs
      · rw [if_pos (hmem_iff.mpr hm), if_pos hm]
        have hfr := e14 repl.storeID hrs
        rw [hfr.2.1, hfr.2.2.2.2.2.2]
      · rw [if_neg (fun hc => hm (hmem_iff.mp hc)), if_neg hm]

theorem deadReplicasLoop_filter (rid : RangeID) (repls : List ReplicaDescriptor) :
    ∀ (sp : StorePool) (now : Timestamp),
    (sp.deadReplicasLoop rid repls now).1 = repls.filter (specDeadReplicaHit sp rid) := by
  induction repls with
  | nil => intro sp now; rfl
  | cons repl rest ih =>
    intro sp now
    simp only [StorePool.deadReplicasLoop]
    rw [List.filter_cons]
    have hhit : (((sp.getStoreDetailLocked repl.storeID now).storeDetails repl.storeID).dead
        || (((sp.getStoreDetailLocked repl.storeID now).storeDetails
              repl.storeID).deadReplicas rid).any (fun dr => dr.replicaID == repl.replicaID)) =
        specDeadReplicaHit sp rid repl := by
      rw [← getStoreDetailLocked_specDeadReplicaHit sp repl.storeID now rid repl,
        specDeadReplicaHit_of_mem _ _ _ (StorePool.getStoreDetailLocked_mem sp repl.storeID now)]
    have hrest : ((sp.getStoreDetailLocked repl.storeID now).deadReplicasLoop rid rest now).1 =
        rest.filter (specDeadReplicaHit sp rid) := by
      rw [ih (sp.getStoreDetailLocked repl.storeID now) now]
      exact List.filter_congr (fun r _ =>
        getStoreDetailLocked_specDeadReplicaHit sp repl.storeID now rid r)
    by_cases hb : specDeadReplicaHit sp rid repl = true
    · rw [if_pos hb]
      rw [show (specDeadReplicaHit sp rid repl = true) from hb] at hhit
      rw [hhit, if_pos rfl, hrest]
    · have hb' : specDeadReplicaHit sp rid repl = false := by
        cases hq : specDeadReplicaHit sp rid repl
        · rfl
        · exact absurd hq hb
      rw [hhit, hb', if_neg Bool.false_ne_true, if_neg Bool.false_ne_true, hrest]

/-- C9: every call to the running statistic's `update(x)` increments `n` by
one and satisfies Welford's recurrence exactly: the new mean equals the old
mean plus `(x − old mean)` divided by the new `n`, and the new `s` equals
the old `s` plus `(x − old mean) · (x − new mean)`. -/
theorem stat_update_welford (st : stat) (x : ℚ) :
    (st.update x).n = st.n + 1 ∧
    (st.update x).mean = st.mean + (x - st.mean) / (st.update x).n ∧
    (st.update x).s = st.s + (x - st.mean) * (x - (st.update x).mean) :=
  ⟨rfl, rfl, rfl⟩

/-- C3 counterexample: `markAlive` with an absent descriptor does **not**
leave the existing descriptor unchanged — it overwrites it with `nil`.  On
a detail holding a descriptor, `markAlive(now, nil)` clears `desc`. -/
theorem markAlive_absent_clears_desc :
    ({ desc := some zeroStoreDescriptor, dead := true, timesDied := 0, foundDeadOn := ⟨0, 0⟩,
       throttledUntil := 0, lastUpdatedTime := ⟨0, 0⟩, index := -1,
       deadReplicas := fun _ => [] } : storeDetail).desc = some zeroStoreDescriptor ∧
    (({ desc := some zeroStoreDescriptor, dead := true, timesDied := 0, foundDeadOn := ⟨0, 0⟩,
        throttledUntil := 0, lastUpdatedTime := ⟨0, 0⟩, index := -1,
        deadReplicas := fun _ => [] } : storeDetail).markAlive ⟨5, 0⟩ none).desc = none :=
  ⟨rfl, rfl⟩

/-- C3 (amended): `markAlive(now, desc)` sets `dead` to false,
`lastUpdatedTime` to `now`, and stores the descriptor argument
**unconditionally** — when the argument is absent the stored descriptor is
cleared, not preserved.  All other fields are unchanged. -/
theorem markAlive_spec (sd : storeDetail) (now : Timestamp) (d : Option StoreDescriptor) :
    (sd.markAlive now d).desc = d ∧
    (sd.markAlive now d).dead = false ∧
    (sd.markAlive now d).lastUpdatedTime = now ∧
    (sd.markAlive now d).timesDied = sd.timesDied ∧
    (sd.markAlive now d).foundDeadOn = sd.foundDeadOn ∧
    (sd.markAlive now d).throttledUntil = sd.throttledUntil ∧
    (sd.markAlive now d).index = sd.index ∧
    (sd.markAlive now d).deadReplicas = sd.deadReplicas :=
  ⟨rfl, rfl, rfl, rfl, rfl, rfl, rfl, rfl⟩

/-- C1: `getStoreList` returns exactly the descriptors of the details
classified `available`; `aliveCount` counts the details classified
`alive`, `throttled` or `available` (i.e. those not classified `dead`);
`throttledCount` counts exactly the `throttled` ones, so
`throttledCount ≤ aliveCount`; and every returned descriptor belongs to a
detail that is not dead, holds that descriptor, is not throttled at `now`,
and whose combined attribute set contains every constraint value. -/
theorem getStoreList_spec (sp : StorePool) (c : Constraints) (det : Bool) (now : Int) :
    (sp.getStoreList c det now).1.stores =
      (sp.storeListIDs det).filterMap (fun id =>
        match (sp.storeDetails id).match' now c with
        | .available => (sp.storeDetails id).desc
        | _ => none) ∧
    (sp.getStoreList c det now).2.1 =
      (sp.storeListIDs det).countP
        (fun id => !((sp.storeDetails id).match' now c == .dead)) ∧
    (sp.getStoreList c det now).2.2 =
      (sp.storeListIDs det).countP
        (fun id => (sp.storeDetails id).match' now c == .throttled) ∧
    (sp.getStoreList c det now).2.2 ≤ (sp.getStoreList c det now).2.1 ∧
    (∀ d ∈ (sp.getStoreList c det now).1.stores,
      ∃ id ∈ sp.storeListIDs det,
        (sp.storeDetails id).desc = some d ∧
        (sp.storeDetails id).dead = false ∧
        ¬ now < (sp.storeDetails id).throttledUntil ∧
        (∀ cons ∈ c.constraints, cons.value ∈ d.combinedAttrs.attrs)) := by
  obtain ⟨h1, h2, h3⟩ := getStoreList_fold sp c now (sp.storeListIDs det)
    (StoreList.empty, 0, 0)
  have e1 : (sp.getStoreList c det now).1.stores =
      (sp.storeListIDs det).filterMap (fun id =>
        match (sp.storeDetails id).match' now c with
        | .available => (sp.storeDetails id).desc
        | _ => none) := by
    show ((sp.storeListIDs det).foldl (sp.storeListStep c now)
      (StoreList.empty, 0, 0)).1.stores = _
    rw [h1]
    rfl
  have e2 : (sp.getStoreList c det now).2.1 =
      (sp.storeListIDs det).countP
        (fun id => !((sp.storeDetails id).match' now c == .dead)) := by
    show ((sp.storeListIDs det).foldl (sp.storeListStep c now) (StoreList.empty, 0, 0)).2.1 = _
    rw [h2]
    simp
  have e3 : (sp.getStoreList c det now).2.2 =
      (sp.storeListIDs det).countP
        (fun id => (sp.storeDetails id).match' now c == .throttled) := by
    show ((sp.storeListIDs det).foldl (sp.storeListStep c now) (StoreList.empty, 0, 0)).2.2 = _
    rw [h3]
    simp
  refine ⟨e1, e2, e3, ?_, ?_⟩
  · rw [e2, e3]
    refine List.countP_mono_left ?_
    intro id _ hp
    simp only [beq_iff_eq] at hp
    simp [hp]
  · intro d hd
    rw [e1] at hd
    obtain ⟨id, hid, hmap⟩ := List.mem_filterMap.mp hd
    refine ⟨id, hid, ?_⟩
    cases hm : (sp.storeDetails id).match' now c with
    | available =>
      rw [hm] at hmap
      simp only [] at hmap
      obtain ⟨hdead, d2, hdesc, hcons, hth⟩ := (match'_available_iff _ now c).mp hm
      rw [hmap] at hdesc
      injection hdesc with hdd
      refine ⟨hmap, hdead, hth, ?_⟩
      rw [hdd]
      exact hcons
    | dead => rw [hm] at hmap; simp at hmap
    | alive => rw [hm] at hmap; simp at hmap
    | throttled => rw [hm] at hmap; simp at hmap

/-- C4: `deadReplicas(rangeID, replicas)` returns exactly the input
replicas whose resolved detail is dead or whose `ReplicaID` occurs in the
detail's per-range dead-replica index for `rangeID` — i.e. it filters the
input by `specDeadReplicaHit` evaluated against the pool state before the
call, which preserves input order and includes each input occurrence at
most once; a dead store forces inclusion regardless of the per-range
index. -/
theorem deadReplicas_spec (sp : StorePool) (rangeID : RangeID)
    (repls : List ReplicaDescriptor) (now : Timestamp) :
    (sp.deadReplicas rangeID repls now).1 = repls.filter (specDeadReplicaHit sp rangeID) ∧
    (∀ repl ∈ repls, repl.storeID ∈ sp.storeIDs →
      (sp.storeDetails repl.storeID).dead = true →
      repl ∈ (sp.deadReplicas rangeID repls now).1) := by
  have h1 : (sp.deadReplicas rangeID repls now).1 =
      repls.filter (specDeadReplicaHit sp rangeID) :=
    deadReplicasLoop_filter rangeID repls sp now
  refine ⟨h1, ?_⟩
  intro repl hmem hsm hdead
  rw [h1, List.mem_filter]
  refine ⟨hmem, ?_⟩
  rw [specDeadReplicaHit_of_mem sp rangeID repl hsm, hdead]
  simp

/-- C5: after any sequence of public operations from a fresh pool, a
registered detail's `index` is `−1` exactly when it is not in the liveness
queue; every queued detail's `index` equals its current heap position; and
the queue is a min-heap on `lastUpdatedTime` (no child is `Less` than its
parent, i.e. each parent's timestamp is `≤` its child's). -/
theorem pool_invariants (t f d : Int) (ops : List Op) :
    (∀ id, id ∈ (runOps (initialPool t f d) ops).storeIDs →
      (((runOps (initialPool t f d) ops).storeDetails id).index = -1 ↔
        ¬ (runOps (initialPool t f d) ops).inQueue id)) ∧
    (∀ p, p < (runOps (initialPool t f d) ops).qlen →
      ((runOps (initialPool t f d) ops).storeDetails
        ((runOps (initialPool t f d) ops).qid p)).index = (p : Int)) ∧
    (∀ k, k < (runOps (initialPool t f d) ops).qlen → 0 < k →
      (runOps (initialPool t f d) ops).pqLess k ((k - 1) / 2) = false) := by
  obtain ⟨⟨inj, sub, pos, neg⟩, heap⟩ :=
    runOps_inv ops (initialPool t f d) (initialPool_inv t f d)
  refine ⟨?_, pos, heap⟩
  intro id hmem
  constructor
  · intro hix hq
    obtain ⟨p, hp, hqp⟩ := hq
    have := pos p hp
    rw [hqp, hix] at this
    omega
  · exact neg id hmem

/-- C6: `getStoreDetailLocked` returns the pool unchanged (hence the
existing detail unchanged) when the store is known; otherwise it inserts a
fresh descriptor-less detail into the registry, marks it alive at `now`
with the descriptor still absent, and enqueues it into the liveness
queue. -/
theorem getStoreDetailLocked_spec (sp : StorePool) (id : StoreID) (now : Timestamp) :
    (id ∈ sp.storeIDs → sp.getStoreDetailLocked id now = sp) ∧
    (id ∉ sp.storeIDs →
      (sp.getStoreDetailLocked id now).storeIDs = sp.storeIDs ++ [id] ∧
      ((sp.getStoreDetailLocked id now).storeDetails id).desc = none ∧
      ((sp.getStoreDetailLocked id now).storeDetails id).dead = false ∧
      ((sp.getStoreDetailLocked id now).storeDetails id).lastUpdatedTime = now ∧
      (sp.getStoreDetailLocked id now).inQueue id ∧
      (sp.getStoreDetailLocked id now).qlen = sp.qlen + 1) := by
  refine ⟨StorePool.getStoreDetailLocked_known sp id now, fun h => ?_⟩
  obtain ⟨e1, e2, -, -, -, e6, -, e8, e9, e10, -, -, -, -⟩ :=
    StorePool.getStoreDetailLocked_fresh sp id now h
  exact ⟨e1, e8, e9, e10, e6, e2⟩

theorem getStoreDetailLocked_spec_witness :
    (3 : StoreID) ∉ (initialPool 5 0 0).storeIDs ∧
    (((initialPool 5 0 0).getStoreDetailLocked 3 ⟨2, 1⟩).storeIDs =
        (initialPool 5 0 0).storeIDs ++ [3] ∧
      (((initialPool 5 0 0).getStoreDetailLocked 3 ⟨2, 1⟩).storeDetails 3).desc = none ∧
      (((initialPool 5 0 0).getStoreDetailLocked 3 ⟨2, 1⟩).storeDetails 3).dead = false ∧
      (((initialPool 5 0 0).getStoreDetailLocked 3 ⟨2, 1⟩).storeDetails 3).lastUpdatedTime =
        ⟨2, 1⟩ ∧
      ((initialPool 5 0 0).getStoreDetailLocked 3 ⟨2, 1⟩).inQueue 3 ∧
      ((initialPool 5 0 0).getStoreDetailLocked 3 ⟨2, 1⟩).qlen = (initialPool 5 0 0).qlen + 1) :=
  ⟨by decide, (getStoreDetailLocked_spec (initialPool 5 0 0) 3 ⟨2, 1⟩).2 (by decide)⟩

/-- C7: `throttle(reason, storeID)` stamps the resolved detail's
`throttledUntil` to `now` plus the reason's configured timeout
(`declinedReservationsTimeout` for declined, `failedReservationsTimeout`
for failed) and, for a store already in the registry, changes nothing
else: `dead`, `lastUpdatedTime`, `desc`, `deadReplicas`, the heap
back-pointer and the queue itself are untouched, as is every other
detail. -/
theorem throttle_spec (sp : StorePool) (reason : throttleReason) (id : StoreID)
    (now : Timestamp) (h : id ∈ sp.storeIDs) :
    ((sp.throttle reason id now).storeDetails id).throttledUntil =
      now.wallTime + (match reason with
        | .declined => sp.declinedReservationsTimeout
        | .failed => sp.failedReservationsTimeout) ∧
    ((sp.throttle reason id now).storeDetails id).dead = (sp.storeDetails id).dead ∧
    ((sp.throttle reason id now).storeDetails id).lastUpdatedTime =
      (sp.storeDetails id).lastUpdatedTime ∧
    ((sp.throttle reason id now).storeDetails id).desc = (sp.storeDetails id).desc ∧
    ((sp.throttle reason id now).storeDetails id).deadReplicas =
      (sp.storeDetails id).deadReplicas ∧
    ((sp.throttle reason id now).storeDetails id).index = (sp.storeDetails id).index ∧
    (sp.throttle reason id now).queue = sp.queue ∧
    (sp.throttle reason id now).storeIDs = sp.storeIDs ∧
    (∀ id', id' ≠ id → (sp.throttle reason id now).storeDetails id' = sp.storeDetails id') := by
  unfold StorePool.throttle
  rw [StorePool.getStoreDetailLocked_known sp id now h]
  cases reason with
  | declined =>
    refine ⟨?_, ?_, ?_, ?_, ?_, ?_, rfl, rfl, ?_⟩
    · rw [StorePool.updateDetail_details_same]
    · rw [StorePool.updateDetail_details_same]
    · rw [StorePool.updateDetail_details_same]
    · rw [StorePool.updateDetail_details_same]
    · rw [StorePool.updateDetail_details_same]
    · rw [StorePool.updateDetail_details_same]
    · intro id' h'
      exact StorePool.updateDetail_details_ne _ _ _ _ h'
  | failed =>
    refine ⟨?_, ?_, ?_, ?_, ?_, ?_, rfl, rfl, ?_⟩
    · rw [StorePool.updateDetail_details_same]
    · rw [StorePool.updateDetail_details_same]
    · rw [StorePool.updateDetail_details_same]
    · rw [StorePool.updateDetail_details_same]
    · rw [StorePool.updateDetail_details_same]
    · rw [StorePool.updateDetail_details_same]
    · intro id' h'
      exact StorePool.updateDetail_details_ne _ _ _ _ h'

theorem throttle_spec_witness :
    (1 : StoreID) ∈ ((initialPool 5 7 9).getStoreDetailLocked 1 ⟨0, 0⟩).storeIDs ∧
    ((((initialPool 5 7 9).getStoreDetailLocked 1 ⟨0, 0⟩).throttle .failed 1
        ⟨2, 0⟩).storeDetails 1).throttledUntil =
      (2 : Int) + (match throttleReason.failed with
        | .declined => ((initialPool 5 7 9).getStoreDetailLocked 1 ⟨0, 0⟩).declinedReservationsTimeout
        | .failed => ((initialPool 5 7 9).getStoreDetailLocked 1 ⟨0, 0⟩).failedReservationsTimeout) :=
  ⟨by decide,
   (throttle_spec ((initialPool 5 7 9).getStoreDetailLocked 1 ⟨0, 0⟩) .failed 1 ⟨2, 0⟩
     (by decide)).1⟩

/-- C8: the dead-replicas gossip handler replaces the resolved detail's
whole `deadReplicas` mapping with the index built from the payload (the
entry for each range is exactly the payload's replicas for that range, in
payload order, independent of the previous mapping), and for a store
already in the registry it leaves `dead`, `desc`, `lastUpdatedTime`,
`throttledUntil`, the heap back-pointer and the queue unchanged — it is
not an alive observation and does not reset the liveness timer. -/
theorem deadReplicasGossipUpdate_spec (sp : StorePool) (payload : StoreDeadReplicas)
    (now : Timestamp) (h : payload.storeID ∈ sp.storeIDs) :
    (∀ rid, ((sp.deadReplicasGossipUpdate payload now).storeDetails
        payload.storeID).deadReplicas rid =
      (payload.replicas.filter (fun r => r.rangeID == rid)).map (fun r => r.replica)) ∧
    ((sp.deadReplicasGossipUpdate payload now).storeDetails payload.storeID).dead =
      (sp.storeDetails payload.storeID).dead ∧
    ((sp.deadReplicasGossipUpdate payload now).storeDetails payload.storeID).desc =
      (sp.storeDetails payload.storeID).desc ∧
    ((sp.deadReplicasGossipUpdate payload now).storeDetails payload.storeID).lastUpdatedTime =
      (sp.storeDetails payload.storeID).lastUpdatedTime ∧
    ((sp.deadReplicasGossipUpdate payload now).storeDetails payload.storeID).throttledUntil =
      (sp.storeDetails payload.storeID).throttledUntil ∧
    ((sp.deadReplicasGossipUpdate payload now).storeDetails payload.storeID).index =
      (sp.storeDetails payload.storeID).index ∧
    (sp.deadReplicasGossipUpdate payload now).queue = sp.queue ∧
    (sp.deadReplicasGossipUpdate payload now).storeIDs = sp.storeIDs ∧
    (∀ id', id' ≠ payload.storeID →
      (sp.deadReplicasGossipUpdate payload now).storeDetails id' = sp.storeDetails id') := by
  unfold StorePool.deadReplicasGossipUpdate
  rw [StorePool.getStoreDetailLocked_known sp payload.storeID now h]
  refine ⟨?_, ?_, ?_, ?_, ?_, ?_, rfl, rfl, ?_⟩
  · intro rid
    rw [StorePool.updateDetail_details_same]
    exact buildDeadReplicasIndex_eq payload.replicas rid
  · rw [StorePool.updateDetail_details_same]
  · rw [StorePool.updateDetail_details_same]
  · rw [StorePool.updateDetail_details_same]
  · rw [StorePool.updateDetail_details_same]
  · rw [StorePool.updateDetail_details_same]
  · intro id' h'
    exact StorePool.updateDetail_details_ne _ _ _ _ h'

theorem deadReplicasGossipUpdate_spec_witness :
    (1 : StoreID) ∈ ((initialPool 5 7 9).getStoreDetailLocked 1 ⟨0, 0⟩).storeIDs ∧
    (((((initialPool 5 7 9).getStoreDetailLocked 1 ⟨0, 0⟩).deadReplicasGossipUpdate
        ⟨1, [⟨42, ⟨1, 1, 9⟩⟩]⟩ ⟨3, 0⟩).storeDetails 1).deadReplicas 42 =
      (([⟨42, ⟨1, 1, 9⟩⟩] : List ReplicaIdent).filter
        (fun r => r.rangeID == 42)).map (fun r => r.replica)) :=
  ⟨by decide,
   (deadReplicasGossipUpdate_spec ((initialPool 5 7 9).getStoreDetailLocked 1 ⟨0, 0⟩)
     ⟨1, [⟨42, ⟨1, 1, 9⟩⟩]⟩ ⟨3, 0⟩ (by decide)).1 42⟩

/-- C10: calling `throttle` or `updateRemoteCapacityEstimate` with an
unknown store identifier lazily creates an alive, descriptor-less detail,
appends it to the registry and enqueues it (registry and queue each grow
by one); in the `updateRemoteCapacityEstimate` case the capacity update
itself is then silently dropped because the fresh detail has no
descriptor — the operation is exactly the lazy lookup. -/
theorem lazy_creation_spec (sp : StorePool) (id : StoreID) (reason : throttleReason)
    (cap : StoreCapacity) (now : Timestamp) (h : id ∉ sp.storeIDs) :
    (sp.throttle reason id now).storeIDs = sp.storeIDs ++ [id] ∧
    (sp.throttle reason id now).qlen = sp.qlen + 1 ∧
    (sp.throttle reason id now).inQueue id ∧
    ((sp.throttle reason id now).storeDetails id).desc = none ∧
    ((sp.throttle reason id now).storeDetails id).dead = false ∧
    ((sp.throttle reason id now).storeDetails id).lastUpdatedTime = now ∧
    (sp.updateRemoteCapacityEstimate id cap now).storeIDs = sp.storeIDs ++ [id] ∧
    (sp.updateRemoteCapacityEstimate id cap now).qlen = sp.qlen + 1 ∧
    (sp.updateRemoteCapacityEstimate id cap now).inQueue id ∧
    ((sp.updateRemoteCapacityEstimate id cap now).storeDetails id).desc = none ∧
    ((sp.updateRemoteCapacityEstimate id cap now).storeDetails id).dead = false ∧
    sp.updateRemoteCapacityEstimate id cap now = sp.getStoreDetailLocked id now := by
  obtain ⟨e1, e2, -, -, -, e6, -, e8, e9, e10, -, -, -, -⟩ :=
    StorePool.getStoreDetailLocked_fresh sp id now h
  have hcap : sp.updateRemoteCapacityEstimate id cap now = sp.getStoreDetailLocked id now := by
    unfold StorePool.updateRemoteCapacityEstimate
    split
    · rfl
    · rename_i desc heq
      rw [e8] at heq
      cases heq
  have hthrottle :
      (sp.throttle reason id now).storeIDs = sp.storeIDs ++ [id] ∧
      (sp.throttle reason id now).qlen = sp.qlen + 1 ∧
      (sp.throttle reason id now).inQueue id ∧
      ((sp.throttle reason id now).storeDetails id).desc = none ∧
      ((sp.throttle reason id now).storeDetails id).dead = false ∧
      ((sp.throttle reason id now).storeDetails id).lastUpdatedTime = now := by
    unfold StorePool.throttle
    cases reason with
    | declined =>
      refine ⟨e1, e2, ?_, ?_, ?_, ?_⟩
      · rw [StorePool.updateDetail_inQueue]
        exact e6
      · rw [StorePool.updateDetail_details_same]
        exact e8
      · rw [StorePool.updateDetail_details_same]
        exact e9
      · rw [StorePool.updateDetail_details_same]
        exact e10
    | failed =>
      refine ⟨e1, e2, ?_, ?_, ?_, ?_⟩
      · rw [StorePool.updateDetail_inQueue]
        exact e6
      · rw [StorePool.updateDetail_details_same]
        exact e8
      · rw [StorePool.updateDetail_details_same]
        exact e9
      · rw [StorePool.updateDetail_details_same]
        exact e10
  obtain ⟨t1, t2, t3, t4, t5, t6⟩ := hthrottle
  refine ⟨t1, t2, t3, t4, t5, t6, ?_, ?_, ?_, ?_, ?_, hcap⟩
  · rw [hcap]; exact e1
  · rw [hcap]; exact e2
  · rw [hcap]; exact e6
  · rw [hcap]; exact e8
  · rw [hcap]; exact e9

theorem lazy_creation_spec_witness :
    (4 : StoreID) ∉ (initialPool 5 7 9).storeIDs ∧
    (((initialPool 5 7 9).throttle .declined 4 ⟨2, 0⟩).storeIDs =
        (initialPool 5 7 9).storeIDs ++ [4] ∧
      ((initialPool 5 7 9).throttle .declined 4 ⟨2, 0⟩).qlen = (initialPool 5 7 9).qlen + 1 ∧
      ((initialPool 5 7 9).throttle .declined 4 ⟨2, 0⟩).inQueue 4 ∧
      (((initialPool 5 7 9).throttle .declined 4 ⟨2, 0⟩).storeDetails 4).desc = none ∧
      (((initialPool 5 7 9).throttle .declined 4 ⟨2, 0⟩).storeDetails 4).dead = false ∧
      (((initialPool 5 7 9).throttle .declined 4 ⟨2, 0⟩).storeDetails 4).lastUpdatedTime =
        ⟨2, 0⟩ ∧
      ((initialPool 5 7 9).updateRemoteCapacityEstimate 4 ⟨0, 0, 11⟩ ⟨2, 0⟩).storeIDs =
        (initialPool 5 7 9).storeIDs ++ [4] ∧
      ((initialPool 5 7 9).updateRemoteCapacityEstimate 4 ⟨0, 0, 11⟩ ⟨2, 0⟩).qlen =
        (initialPool 5 7 9).qlen + 1 ∧
      ((initialPool 5 7 9).updateRemoteCapacityEstimate 4 ⟨0, 0, 11⟩ ⟨2, 0⟩).inQueue 4 ∧
      (((initialPool 5 7 9).updateRemoteCapacityEstimate 4 ⟨0, 0, 11⟩ ⟨2, 0⟩).storeDetails
        4).desc = none ∧
      (((initialPool 5 7 9).updateRemoteCapacityEstimate 4 ⟨0, 0, 11⟩ ⟨2, 0⟩).storeDetails
        4).dead = false ∧
      (initialPool 5 7 9).updateRemoteCapacityEstimate 4 ⟨0, 0, 11⟩ ⟨2, 0⟩ =
        (initialPool 5 7 9).getStoreDetailLocked 4 ⟨2, 0⟩) :=
  ⟨by decide, lazy_creation_spec (initialPool 5 7 9) 4 .declined ⟨0, 0, 11⟩ ⟨2, 0⟩ (by decide)⟩

/-- C2, counterexample: a store whose dead-as-of deadline exactly equals
the worker's current wall time (`now ≥ deadAsOf` holds, `now > deadAsOf`
does not) is neither dequeued nor marked dead by the worker iteration —
the code compares with the strict `time.Time.After` — yet the computed
timeout is `0`.  Concretely: a store gossiped at wall time `0` with
`timeUntilStoreDead = 5`, examined at wall time `5`, is still at the head
of the queue, still alive, and the pool is unchanged. -/
theorem workerIteration_at_deadline_not_dequeued :
    ((((initialPool 5 0 0).storeGossipUpdate ⟨1, ⟨1, ⟨[]⟩⟩, ⟨[]⟩, ⟨0, 0, 0⟩⟩
          ⟨0, 0⟩).storeDetails 1).lastUpdatedTime.wallTime +
        ((initialPool 5 0 0).storeGossipUpdate ⟨1, ⟨1, ⟨[]⟩⟩, ⟨[]⟩, ⟨0, 0, 0⟩⟩
          ⟨0, 0⟩).timeUntilStoreDead ≤ (Timestamp.mk 5 0).wallTime) ∧
    ((initialPool 5 0 0).storeGossipUpdate ⟨1, ⟨1, ⟨[]⟩⟩, ⟨[]⟩, ⟨0, 0, 0⟩⟩ ⟨0, 0⟩).peek =
      some 1 ∧
    (((initialPool 5 0 0).storeGossipUpdate ⟨1, ⟨1, ⟨[]⟩⟩, ⟨[]⟩, ⟨0, 0, 0⟩⟩
        ⟨0, 0⟩).workerIteration ⟨5, 0⟩).1 =
      (initialPool 5 0 0).storeGossipUpdate ⟨1, ⟨1, ⟨[]⟩⟩, ⟨[]⟩, ⟨0, 0, 0⟩⟩ ⟨0, 0⟩ ∧
    (((initialPool 5 0 0).storeGossipUpdate ⟨1, ⟨1, ⟨[]⟩⟩, ⟨[]⟩, ⟨0, 0, 0⟩⟩
        ⟨0, 0⟩).workerIteration ⟨5, 0⟩).2 = 0 :=
  ⟨by decide, by decide, rfl, by decide⟩

/-- C2, amended: one worker iteration at time `now` behaves as follows.
With an empty queue it changes nothing and waits `timeUntilStoreDead`.
With head store `headID`: if `now` is strictly past
`lastUpdatedTime + timeUntilStoreDead` the head is dequeued and marked
dead at `now` (`dead`, `foundDeadOn := now`, `timesDied + 1`), the queue
shrinks by one losing exactly the head, and the next timeout is `0`;
otherwise — including the boundary `now = deadAsOf` — the pool is
unchanged and the worker waits exactly `deadAsOf − now` (which is `0` at
the boundary). -/
theorem workerIteration_spec (sp : StorePool) (now : Timestamp) (hInv : sp.Inv) :
    (sp.peek = none → sp.workerIteration now = (sp, sp.timeUntilStoreDead)) ∧
    (∀ headID, sp.peek = some headID →
      ((sp.storeDetails headID).lastUpdatedTime.wallTime + sp.timeUntilStoreDead <
          now.wallTime →
        (sp.workerIteration now).2 = 0 ∧
        ((sp.workerIteration now).1.storeDetails headID).dead = true ∧
        ((sp.workerIteration now).1.storeDetails headID).foundDeadOn = now ∧
        ((sp.workerIteration now).1.storeDetails headID).timesDied =
          (sp.storeDetails headID).timesDied + 1 ∧
        ¬ (sp.workerIteration now).1.inQueue headID ∧
        (sp.workerIteration now).1.qlen = sp.qlen - 1 ∧
        (∀ x, (sp.workerIteration now).1.inQueue x → sp.inQueue x) ∧
        (∀ x, sp.inQueue x → x ≠ headID → (sp.workerIteration now).1.inQueue x)) ∧
      (¬ ((sp.storeDetails headID).lastUpdatedTime.wallTime + sp.timeUntilStoreDead <
          now.wallTime) →
        sp.workerIteration now =
          (sp, (sp.storeDetails headID).lastUpdatedTime.wallTime + sp.timeUntilStoreDead -
            now.wallTime))) := by
  constructor
  · intro hpeek
    unfold StorePool.workerIteration
    rw [hpeek]
  · intro headID hpeek
    have hne : 0 < sp.qlen := by
      unfold StorePool.peek at hpeek
      by_cases h0 : sp.qlen = 0
      · rw [if_pos h0] at hpeek
        cases hpeek
      · omega
    have hhead : sp.qid 0 = headID := by
      unfold StorePool.peek at hpeek
      rw [if_neg (by omega)] at hpeek
      exact Option.some.inj hpeek
    obtain ⟨p1, -, p3, -, -, -, -, p8, p9, p10, -, p12⟩ := StorePool.pqPop_spec sp hInv hne
    constructor
    · intro hcond
      have heval : sp.workerIteration now =
          ((sp.pqPop).1.updateDetail (sp.pqPop).2 (fun d => d.markDead now), 0) := by
        unfold StorePool.workerIteration
        rw [hpeek]
        simp only
        rw [if_pos hcond]
        have hdeq : sp.dequeue = ((sp.pqPop).1, some (sp.pqPop).2) := by
          unfold StorePool.dequeue
          rw [if_neg (by omega)]
        rw [hdeq]
      rw [heval, p1, hhead]
      refine ⟨rfl, ?_, ?_, ?_, ?_, ?_, ?_, ?_⟩
      · rw [StorePool.updateDetail_details_same]
        rfl
      · rw [StorePool.updateDetail_details_same]
        rfl
      · rw [StorePool.updateDetail_details_same]
        have ht := (p12 headID).2.2.1
        simp [storeDetail.markDead, ht]
      · rw [StorePool.updateDetail_inQueue, ← hhead]
        exact p8
      · rw [StorePool.updateDetail_qlen]
        exact p3
      · intro x hx
        rw [StorePool.updateDetail_inQueue] at hx
        exact p9 x hx
      · intro x hx hxne
        rw [StorePool.updateDetail_inQueue]
        exact p10 x hx (by rw [hhead]; exact hxne)
    · intro hcond
      unfold StorePool.workerIteration
      rw [hpeek]
      simp only
      rw [if_neg hcond]

theorem workerIteration_spec_witness :
    ((initialPool 5 0 0).storeGossipUpdate ⟨1, ⟨1, ⟨[]⟩⟩, ⟨[]⟩, ⟨0, 0, 0⟩⟩ ⟨0, 0⟩).Inv ∧
    ((initialPool 5 0 0).storeGossipUpdate ⟨1, ⟨1, ⟨[]⟩⟩, ⟨[]⟩, ⟨0, 0, 0⟩⟩ ⟨0, 0⟩).peek =
      some 1 ∧
    ((((initialPool 5 0 0).storeGossipUpdate ⟨1, ⟨1, ⟨[]⟩⟩, ⟨[]⟩, ⟨0, 0, 0⟩⟩
          ⟨0, 0⟩).storeDetails 1).lastUpdatedTime.wallTime +
        ((initialPool 5 0 0).storeGossipUpdate ⟨1, ⟨1, ⟨[]⟩⟩, ⟨[]⟩, ⟨0, 0, 0⟩⟩
          ⟨0, 0⟩).timeUntilStoreDead < (Timestamp.mk 6 0).wallTime) ∧
    ((((initialPool 5 0 0).storeGossipUpdate ⟨1, ⟨1, ⟨[]⟩⟩, ⟨[]⟩, ⟨0, 0, 0⟩⟩
        ⟨0, 0⟩).workerIteration ⟨6, 0⟩).2 = 0 ∧
      ((((initialPool 5 0 0).storeGossipUpdate ⟨1, ⟨1, ⟨[]⟩⟩, ⟨[]⟩, ⟨0, 0, 0⟩⟩
          ⟨0, 0⟩).workerIteration ⟨6, 0⟩).1.storeDetails 1).dead = true ∧
      ((((initialPool 5 0 0).storeGossipUpdate ⟨1, ⟨1, ⟨[]⟩⟩, ⟨[]⟩, ⟨0, 0, 0⟩⟩
          ⟨0, 0⟩).workerIteration ⟨6, 0⟩).1.storeDetails 1).foundDeadOn = ⟨6, 0⟩ ∧
      ((((initialPool 5 0 0).storeGossipUpdate ⟨1, ⟨1, ⟨[]⟩⟩, ⟨[]⟩, ⟨0, 0, 0⟩⟩
          ⟨0, 0⟩).workerIteration ⟨6, 0⟩).1.storeDetails 1).timesDied =
        ((((initialPool 5 0 0).storeGossipUpdate ⟨1, ⟨1, ⟨[]⟩⟩, ⟨[]⟩, ⟨0, 0, 0⟩⟩
          ⟨0, 0⟩).storeDetails 1)).timesDied + 1 ∧
      ¬ (((initialPool 5 0 0).storeGossipUpdate ⟨1, ⟨1, ⟨[]⟩⟩, ⟨[]⟩, ⟨0, 0, 0⟩⟩
          ⟨0, 0⟩).workerIteration ⟨6, 0⟩).1.inQueue 1 ∧
      (((initialPool 5 0 0).storeGossipUpdate ⟨1, ⟨1, ⟨[]⟩⟩, ⟨[]⟩, ⟨0, 0, 0⟩⟩
          ⟨0, 0⟩).workerIteration ⟨6, 0⟩).1.qlen =
        ((initialPool 5 0 0).storeGossipUpdate ⟨1, ⟨1, ⟨[]⟩⟩, ⟨[]⟩, ⟨0, 0, 0⟩⟩ ⟨0, 0⟩).qlen
          - 1 ∧
      (∀ x, (((initialPool 5 0 0).storeGossipUpdate ⟨1, ⟨1, ⟨[]⟩⟩, ⟨[]⟩, ⟨0, 0, 0⟩⟩
          ⟨0, 0⟩).workerIteration ⟨6, 0⟩).1.inQueue x →
        ((initialPool 5 0 0).storeGossipUpdate ⟨1, ⟨1, ⟨[]⟩⟩, ⟨[]⟩, ⟨0, 0, 0⟩⟩
          ⟨0, 0⟩).inQueue x) ∧
      (∀ x, ((initialPool 5 0 0).storeGossipUpdate ⟨1, ⟨1, ⟨[]⟩⟩, ⟨[]⟩, ⟨0, 0, 0⟩⟩
          ⟨0, 0⟩).inQueue x → x ≠ 1 →
        (((initialPool 5 0 0).storeGossipUpdate ⟨1, ⟨1, ⟨[]⟩⟩, ⟨[]⟩, ⟨0, 0, 0⟩⟩
          ⟨0, 0⟩).workerIteration ⟨6, 0⟩).1.inQueue x)) :=
  ⟨by decide, by decide, by decide,
   ((workerIteration_spec
      ((initialPool 5 0 0).storeGossipUpdate ⟨1, ⟨1, ⟨[]⟩⟩, ⟨[]⟩, ⟨0, 0, 0⟩⟩ ⟨0, 0⟩)
      ⟨6, 0⟩ (by decide)).2 1 (by decide)).1 (by decide)⟩
